import Mathlib

/-!
# Verification of the gantt-flow state/scheduling core

A shallow embedding of the TypeScript sources of the `gantt-flow` Gantt-chart
widget, restricted to the part the specification calls the state/scheduling
core:

* `DateUtils` (utils.ts) — day arithmetic;
* `TaskManager` (TaskManager.ts) — task/dependency CRUD, cycle detection,
  hierarchy queries, progress aggregation;
* `TaskUtils.autoScheduleTasks` (utils.ts) — dependency-aware rescheduling;
* `StateManager` (StateManager.ts) — dispatch/batch/undo/redo/history.

## Representation choices

* Calendar dates.  The sources store task dates as `YYYY-MM-DD` strings and
  convert back and forth with `DateUtils.parseDate` / `DateUtils.format`,
  doing all arithmetic on whole days (`daysBetween` computes a difference of
  UTC day numbers, `addDays` adds calendar days).  Valid `YYYY-MM-DD` strings
  are in bijection with integer day numbers (days since 1970-01-01), so the
  model carries a task date as that integer (`parseDate`/`format` become the
  identity on this representation).  `civilToDays` below is the standard
  proleptic-Gregorian conversion and realises the bijection, so concrete
  dates appearing in claims can be written `civilToDays 2024 1 6` etc.
  The string-level fallback behaviour of `parseDate` (which matters for one
  error-handling claim only) is modelled separately at string level
  (`parseDateStr`).

* Object references.  JS `Task` objects hold a `children` array of *references*
  to other task objects of the manager's task list.  Every reference a manager
  ever stores points at the (unique) task of its list carrying that id, so the
  model stores a `children : List TaskId` and resolves ids against the task
  list at read time; this coincides with reference semantics whenever ids are
  unique, which all scenarios below assume or establish.

* JS truthiness.  Where the source tests a value for truthiness
  (`taskData.id || ...`, `if (newTask.parentId)`), numeric `0` is falsy;
  the helpers `idOrGen`, `optTruthy` reproduce this.

* Unbounded recursion.  The JS recursions (DFS cycle check, descendant
  collection, level computation) terminate for the acyclic structures they
  are run on but are not structurally recursive; the model gives them a fuel
  parameter that is provably (or by construction) ample for the inputs
  considered, matching the JS behaviour on every input on which the JS
  terminates.

* `Math.round(total / n)` on non-negative operands equals
  `⌊(2·total + n) / (2·n)⌋`; `jsRoundDiv` uses the exact form (for the
  integer progress values involved, the float division is exact enough that
  the double rounding never flips a result across the `.5` boundary).

The `end` field of a task is called `endDate` (`end` is a Lean keyword).
-/

namespace Gantt

/-- Task identifier.  The sources use `string | number` ids; all behaviour the
claims touch is id-generic, so ids are modelled as naturals (generated ids are
numeric in the source, starting from 1). -/
abbrev TaskId := Nat

/-- Dependency types, from types.ts (`finish_to_start` etc.). -/
inductive DependencyType where
  | finish_to_start
  | start_to_start
  | finish_to_finish
  | start_to_finish
deriving DecidableEq, Repr

/-- Task types, from types.ts. -/
inductive TaskType where
  | task
  | milestone
  | project
deriving DecidableEq, Repr

/-- A dependency record: `{fromId, toId, type, lag}`. -/
structure Dependency where
  fromId : TaskId
  toId : TaskId
  type : DependencyType
  lag : Int
deriving DecidableEq, Repr

/-- Gregorian leap year. -/
def isLeap (y : Int) : Bool :=
  (y % 4 == 0 && y % 100 != 0) || y % 400 == 0

/-- Days in a month (1–12). -/
def daysInMonth (y m : Int) : Int :=
  if m == 2 then (if isLeap y then 29 else 28)
  else if m == 4 || m == 6 || m == 9 || m == 11 then 30
  else 31

/-- Day number (days since 1970-01-01) of a proleptic-Gregorian civil date;
the standard `days_from_civil` computation, total for arbitrary `m`, `d` by
normalising the month first (mirroring how a JS `new Date(y, m-1, d)` call
normalises out-of-range components). -/
def civilToDays (y m d : Int) : Int :=
  let y' := y + (m - 1).fdiv 12
  let m' := (m - 1).emod 12 + 1
  let yAdj := if m' ≤ 2 then y' - 1 else y'
  let era := yAdj.fdiv 400
  let yoe := yAdj - era * 400
  let mp := (m' + 9).emod 12
  let doy := (153 * mp + 2).fdiv 5 + d - 1
  let doe := yoe * 365 + yoe.fdiv 4 - yoe.fdiv 100 + doy
  era * 146097 + doe - 719468

example : civilToDays 1970 1 1 = 0 := by decide
example : civilToDays 2024 1 1 = 19723 := by decide
example : civilToDays 2024 1 6 - civilToDays 2024 1 1 = 5 := by decide

/-- `Math.round(total / n)` for integer `total` and positive integer `n`
(round half towards +∞), computed exactly. -/
def jsRoundDiv (total : Int) (n : Nat) : Int :=
  (2 * total + n).fdiv (2 * n)

example : jsRoundDiv 200 3 = 67 := by decide
example : jsRoundDiv 150 3 = 50 := by decide

/-- The task record, from types.ts as populated by `TaskManager.createTask`.
Dates (`start`, `endDate`) are day numbers (see the header); `children`,
`dependencies`, `dependsOn` are the derived caches the manager maintains,
stored as id lists (see the header on references).  The opaque `metadata`
bag is modelled as a key-value list. -/
structure Task where
  id : TaskId
  name : String
  start : Int
  endDate : Int
  type : TaskType
  progress : Int
  color : String
  collapsed : Bool
  draggable : Bool
  resizable : Bool
  readonly : Bool
  dependencies : List TaskId
  dependsOn : List TaskId
  parentId : Option TaskId
  assignees : List String
  assignee : Option String
  children : List TaskId
  metadata : List (String × String)
  critical : Bool
deriving DecidableEq, Repr

/-- JS truthiness of an optional id: `undefined` and `0` are falsy. -/
def optTruthy : Option TaskId → Bool
  | none => false
  | some 0 => false
  | some _ => true

namespace DateUtils

/-- `DateUtils.daysBetween` on the day-number representation: the difference
of UTC day numbers. -/
def daysBetween (startDate endDate : Int) : Int := endDate - startDate

/-- `DateUtils.addDays` on the day-number representation. -/
def addDays (date : Int) (days : Int) : Int := date + days

end DateUtils

/-- Configuration options of a `TaskManager`; the field defaults are the
values the TaskManager constructor merges over a partial options object. -/
structure TaskManagerOptions where
  autoCalculateDuration : Bool := true
  autoCalculateProgress : Bool := false
  checkCircularDependencies : Bool := true
  defaultTaskType : TaskType := TaskType.task
  defaultTaskColor : String := "#4e85c5"
  defaultMilestoneColor : String := "#722ed1"
  defaultProjectColor : String := "#fa8c16"
deriving DecidableEq, Repr

/-- The `TaskManager`'s private state: task list, dependency list, options and
the id counter (`nextId`, initially 1). -/
structure TaskManager where
  tasks : List Task := []
  dependencies : List Dependency := []
  options : TaskManagerOptions := {}
  nextId : Nat := 1
deriving DecidableEq, Repr

/-- `Partial<Task>` as consumed by `createTask`: every field optional
(`none` = the property is absent from the supplied object). -/
structure PartialTask where
  id : Option TaskId := none
  name : Option String := none
  start : Option Int := none
  endDate : Option Int := none
  type : Option TaskType := none
  progress : Option Int := none
  color : Option String := none
  collapsed : Option Bool := none
  draggable : Option Bool := none
  resizable : Option Bool := none
  readonly : Option Bool := none
  dependencies : Option (List TaskId) := none
  dependsOn : Option (List TaskId) := none
  parentId : Option TaskId := none
  assignees : Option (List String) := none
  assignee : Option String := none
  children : Option (List TaskId) := none
  metadata : Option (List (String × String)) := none
  critical : Option Bool := none
deriving DecidableEq, Repr

/-- Replace the first task of the list carrying the given id (modelling a JS
`tasks.find(...)` followed by mutation of the found object). -/
def updateFirst (tasks : List Task) (tid : TaskId) (f : Task → Task) : List Task :=
  match tasks with
  | [] => []
  | t :: rest => if t.id == tid then f t :: rest else t :: updateFirst rest tid f

/-- The `while (this.tasks.some(t => t.id === this.nextId)) this.nextId++`
loop of `_generateId`, with fuel; the loop can advance at most as many times
as there are occupied ids, so `tasks.length + 1` fuel is ample. -/
def generateIdAux (tasks : List Task) : Nat → Nat → Nat
  | 0, n => n
  | fuel + 1, n =>
      if tasks.any (fun t => t.id == n) then generateIdAux tasks fuel (n + 1) else n

namespace TaskManager

/-- `TaskManager._generateId`: first unoccupied id at or above `nextId`.  The
source's while loop leaves `this.nextId` at the returned value, so callers use
the result both as the id and as the new counter. -/
def generateId (tm : TaskManager) : Nat :=
  generateIdAux tm.tasks (tm.tasks.length + 1) tm.nextId

/-- `TaskManager._updateParentTaskChildren(parentId)`: recompute the first
matching parent's `children` cache from a `parentId` scan of the task list
(no-op when the parent is not found). -/
def updateParentTaskChildren (tasks : List Task) (parentId : TaskId) : List Task :=
  if tasks.any (fun t => t.id == parentId) then
    updateFirst tasks parentId (fun p =>
      { p with children := (tasks.filter (fun t => t.parentId == some parentId)).map (·.id) })
  else tasks

/-- `TaskManager._updateTaskDependencies()`: clear every task's
`dependsOn`/`dependencies` caches, then re-add one entry per dependency, in
dependency-list order, onto the first task carrying the relevant id. -/
def updateTaskDependencies (tasks : List Task) (deps : List Dependency) : List Task :=
  let cleared := tasks.map (fun t => { t with dependsOn := ([] : List TaskId),
                                              dependencies := ([] : List TaskId) })
  deps.foldl (fun ts dep =>
    let ts1 := updateFirst ts dep.fromId
      (fun t => { t with dependencies := t.dependencies ++ [dep.toId] })
    updateFirst ts1 dep.toId
      (fun t => { t with dependsOn := t.dependsOn ++ [dep.fromId] })) cleared

/-- `TaskManager.createTask(taskData)`.  `today` stands for the impure
`new Date()` used when a start date is absent.  Mirrors the source line by
line: id via JS-falsy check then `_generateId` (which ratchets `nextId`),
date defaulting, colour by type, field defaulting, push, and the parent
`children`-cache recompute when `parentId` is truthy. -/
def createTask (tm : TaskManager) (today : Int) (taskData : PartialTask) :
    Task × TaskManager :=
  let explicitId := optTruthy taskData.id
  let tid := if explicitId then taskData.id.getD 0 else tm.generateId
  let nextId' := if explicitId then tm.nextId else tm.generateId
  let start := taskData.start.getD today
  let endD := match taskData.endDate with
    | some e => e
    | none => DateUtils.addDays start 1
  let color := match taskData.color with
    | some c => c
    | none => match taskData.type with
      | some TaskType.milestone => tm.options.defaultMilestoneColor
      | some TaskType.project => tm.options.defaultProjectColor
      | _ => tm.options.defaultTaskColor
  let newTask : Task :=
    { id := tid
      name := taskData.name.getD ("任务 " ++ toString tid)
      start := start
      endDate := endD
      type := taskData.type.getD tm.options.defaultTaskType
      progress := taskData.progress.getD 0
      color := color
      collapsed := taskData.collapsed.getD false
      draggable := taskData.draggable.getD true
      resizable := taskData.resizable.getD true
      readonly := taskData.readonly.getD false
      dependencies := taskData.dependencies.getD []
      dependsOn := taskData.dependsOn.getD []
      parentId := taskData.parentId
      assignees := taskData.assignees.getD []
      assignee := taskData.assignee
      children := taskData.children.getD []
      metadata := taskData.metadata.getD []
      critical := taskData.critical.getD false }
  let tasks' := tm.tasks ++ [newTask]
  let tasks'' := if optTruthy newTask.parentId then
      updateParentTaskChildren tasks' (newTask.parentId.getD 0)
    else tasks'
  (newTask, { tm with tasks := tasks'', nextId := nextId' })

/-- Adjacency of the dependency graph `checkCircularDependencies` builds:
all `toId`s of dependencies leaving `tid`, in dependency-list order. -/
def adjOf (deps : List Dependency) (tid : TaskId) : List TaskId :=
  (deps.filter (fun d => d.fromId == tid)).map (·.toId)

/-- One `hasCycle(taskId)` call of `checkCircularDependencies`: DFS carrying
the shared `visited` set and the path-local `recursionStack` (the JS code
deletes the id from the shared stack on exit, which is exactly the path
discipline the immutable argument realises).  Returns the flag and the
updated `visited`.  Fuel bounds the recursion depth; the callers pass more
fuel than there are graph nodes, so the `0` case is never reached on inputs
on which the JS terminates. -/
def hasCycleNode (adj : TaskId → List TaskId) :
    Nat → List TaskId → List TaskId → TaskId → Bool × List TaskId
  | 0, visited, _, _ => (false, visited)
  | fuel + 1, visited, recStack, taskId =>
      if recStack.contains taskId then (true, visited)
      else if visited.contains taskId then (false, visited)
      else
        (adj taskId).foldl
          (fun acc depId =>
            if acc.1 then acc
            else hasCycleNode adj fuel acc.2 (taskId :: recStack) depId)
          (false, taskId :: visited)

/-- The outer loop of `checkCircularDependencies`: run `hasCycle` from every
task id, sharing `visited`, returning at the first cycle found. -/
def checkCircularAll (adj : TaskId → List TaskId) (fuel : Nat)
    (taskIds : List TaskId) : Bool :=
  (taskIds.foldl
    (fun acc tid =>
      if acc.1 then acc else hasCycleNode adj fuel acc.2 [] tid)
    (false, ([] : List TaskId))).1

/-- `TaskManager.checkCircularDependencies()`: full-graph DFS cycle check.
Note it reads only the dependency list and the task ids, never the per-task
caches. -/
def checkCircularDependencies (tm : TaskManager) : Bool :=
  checkCircularAll (adjOf tm.dependencies)
    (tm.tasks.length + tm.dependencies.length + 1) (tm.tasks.map (·.id))

/-- The state of `createDependency` just after the push of the new dependency
and the index rebuild, before the cycle check. -/
def createDependencyPushed (tm : TaskManager) (fromId toId : TaskId)
    (type : DependencyType) (lag : Int) : Dependency × TaskManager :=
  let dependency : Dependency := ⟨fromId, toId, type, lag⟩
  let deps' := tm.dependencies ++ [dependency]
  (dependency,
   { tm with dependencies := deps', tasks := updateTaskDependencies tm.tasks deps' })

/-- `TaskManager.createDependency(fromId, toId, type, lag)`: `null` when an
endpoint is missing; an existing identical (`from`,`to`,`type`) dependency is
returned as-is; otherwise push, rebuild index, and — when the option is on —
roll the push back (pop + index rebuild) if the full-graph cycle check fires. -/
def createDependency (tm : TaskManager) (fromId toId : TaskId)
    (type : DependencyType) (lag : Int) : Option Dependency × TaskManager :=
  if ¬ (tm.tasks.any (fun t => t.id == fromId) ∧
        tm.tasks.any (fun t => t.id == toId)) then (none, tm)
  else
    match tm.dependencies.find?
        (fun dep => dep.fromId == fromId && dep.toId == toId && dep.type == type) with
    | some existingDependency => (some existingDependency, tm)
    | none =>
      let pushed := createDependencyPushed tm fromId toId type lag
      let tm1 := pushed.2
      if tm.options.checkCircularDependencies && tm1.checkCircularDependencies then
        let deps' := tm1.dependencies.dropLast
        (none, { tm1 with dependencies := deps',
                          tasks := updateTaskDependencies tm1.tasks deps' })
      else (some pushed.1, tm1)

/-- The recursive `collectTasksToDelete` of `deleteTask`: the id itself plus,
recursively, every task whose `parentId` equals an id already collected,
found by scanning the task list (not the `children` cache). -/
def collectTasksToDelete (tasks : List Task) : Nat → TaskId → List TaskId
  | 0, _ => []
  | fuel + 1, tid =>
      tid :: ((tasks.filter (fun t => t.parentId == some tid)).map (·.id)).flatMap
        (collectTasksToDelete tasks fuel)

/-- `TaskManager.deleteTask(taskId)`: `false` when no task carries the id;
otherwise remove the collected subtree, every dependency touching a removed
id, and — when the deleted task's parent survives — recompute that parent's
`children` cache.  Returns whether a deletion happened. -/
def deleteTask (tm : TaskManager) (taskId : TaskId) : Bool × TaskManager :=
  match tm.tasks.find? (fun t => t.id == taskId) with
  | none => (false, tm)
  | some task =>
    let tasksToDelete := collectTasksToDelete tm.tasks (tm.tasks.length + 1) taskId
    let parentId := task.parentId
    let deps' := tm.dependencies.filter
      (fun d => ¬ tasksToDelete.contains d.fromId ∧ ¬ tasksToDelete.contains d.toId)
    let tasks' := tm.tasks.filter (fun t => ¬ tasksToDelete.contains t.id)
    let tasks'' :=
      if optTruthy parentId ∧ ¬ tasksToDelete.contains (parentId.getD 0) then
        updateParentTaskChildren tasks' (parentId.getD 0)
      else tasks'
    (true, { tm with tasks := tasks'', dependencies := deps' })

/-- Resolve a task's `children` reference array against the manager's task
list (see the header on references). -/
def resolveChildren (tasks : List Task) (t : Task) : List Task :=
  t.children.filterMap (fun cid => tasks.find? (fun u => u.id == cid))

/-- The recursive `collectDescendants` of `getDescendantTasks`: walk the
`children` caches, pushing each child before its own descendants. -/
def collectDescendants (tasks : List Task) : Nat → Task → List Task
  | 0, _ => []
  | fuel + 1, currentTask =>
      (resolveChildren tasks currentTask).flatMap
        (fun child => child :: collectDescendants tasks fuel child)

/-- `TaskManager.getDescendantTasks(taskId)`: empty when the task is missing,
else the `children`-cache walk. -/
def getDescendantTasks (tm : TaskManager) (taskId : TaskId) : List Task :=
  match tm.tasks.find? (fun t => t.id == taskId) with
  | none => []
  | some task => collectDescendants tm.tasks (tm.tasks.length + 1) task

/-- `TaskManager.calculateTaskDuration(task)`: inclusive day count. -/
def calculateTaskDuration (task : Task) : Int :=
  DateUtils.daysBetween task.start task.endDate + 1

/-- `TaskManager.calculateProjectProgress(projectId)`: 0 unless a task with
this id and type `project` exists; else the rounded mean of `progress` over
the concatenation of the direct-children cache and the full descendant walk
(which, note, enumerates the direct children a second time). -/
def calculateProjectProgress (tm : TaskManager) (projectId : TaskId) : Int :=
  match tm.tasks.find? (fun t => t.id == projectId && t.type == TaskType.project) with
  | none => 0
  | some project =>
    let directChildren := resolveChildren tm.tasks project
    let allTasks := directChildren ++ tm.getDescendantTasks projectId
    if allTasks.length == 0 then 0
    else jsRoundDiv (allTasks.foldl (fun sum t => sum + t.progress) 0) allTasks.length

end TaskManager

namespace DateUtils

/-- `s.split('-')` on the character list of a string (the `String.splitOn`
semantics for the one-character separator, re-implemented structurally so
that it evaluates inside the kernel). -/
def splitOnDash : List Char → List (List Char)
  | [] => [[]]
  | c :: rest =>
    let r := splitOnDash rest
    if c = '-' then [] :: r
    else match r with
      | [] => [[c]]
      | g :: gs => (c :: g) :: gs

/-- Digit-list to number, most significant first. -/
def digitsToNat (digits : List Char) : Nat :=
  digits.foldl (fun acc c => acc * 10 + (c.toNat - 48)) 0

/-- `parseInt(s, 10)`: optional sign then the longest digit prefix; `none`
models `NaN`. -/
def parseIntJS (s : List Char) : Option Int :=
  let p : Int × List Char := match s with
    | '-' :: cs => (-1, cs)
    | '+' :: cs => (1, cs)
    | cs => (1, cs)
  let digits := p.2.takeWhile (·.isDigit)
  if digits.isEmpty then none
  else some (p.1 * (digitsToNat digits : Int))

/-- `new Date(s)` for the date strings this code base feeds it: a strict ISO
`YYYY-MM-DD` calendar date parses to (UTC midnight of) its day number;
anything else is an Invalid Date (`none`). -/
def jsDateParse (s : List Char) : Option Int :=
  match splitOnDash s with
  | [ys, ms, ds] =>
    if ys.length == 4 && ms.length == 2 && ds.length == 2 &&
        ys.all (·.isDigit) && ms.all (·.isDigit) && ds.all (·.isDigit) then
      let y : Int := (digitsToNat ys : Nat)
      let m : Int := (digitsToNat ms : Nat)
      let d : Int := (digitsToNat ds : Nat)
      if 1 ≤ m && m ≤ 12 && 1 ≤ d && d ≤ daysInMonth y m then
        some (civilToDays y m d)
      else none
    else none
  | _ => none

/-- `DateUtils.parseDate` at string level, for a string argument.  `today`
stands for the impure `new Date()` fallback; `none` models an Invalid Date
object (produced when the `YYYY-MM-DD` split succeeds but `parseInt` yields
`NaN`).  Note that no branch throws: the function is total. -/
def parseDateStr (today : Int) (s : String) : Option Int :=
  if s.toList.isEmpty then some today
  else
    match jsDateParse s.toList with
    | some d => some d
    | none =>
      match splitOnDash s.toList with
      | [p1, p2, p3] =>
        match parseIntJS p1, parseIntJS p2, parseIntJS p3 with
        | some y, some m, some d => some (civilToDays y m d)
        | _, _, _ => none
      | _ => some today

end DateUtils

namespace TaskUtils

/-- `TaskUtils.calculateDuration(task)`: exclusive day count (no `+ 1`,
unlike `TaskManager.calculateTaskDuration`). -/
def calculateDuration (task : Task) : Int :=
  DateUtils.daysBetween task.start task.endDate

/-- Id-keyed map with JS `Map.set` semantics (a later `set` on an existing
key overwrites it in place). -/
def mapSet (m : List (TaskId × Task)) (tid : TaskId) (t : Task) :
    List (TaskId × Task) :=
  match m with
  | [] => [(tid, t)]
  | (k, v) :: rest => if k == tid then (tid, t) :: rest else (k, v) :: mapSet rest tid t

/-- `taskMap.get(tid)`. -/
def mapGet (m : List (TaskId × Task)) (tid : TaskId) : Option Task :=
  (m.find? (fun p => p.1 == tid)).map (·.2)

/-- The `taskMap` of `autoScheduleTasks`, built by `forEach`/`set`. -/
def buildMap (tasksCopy : List Task) : List (TaskId × Task) :=
  tasksCopy.foldl (fun m t => mapSet m t.id t) []

/-- One `visit(taskId)` call of `autoScheduleTasks`' topological DFS:
mark visited, recursively visit every predecessor (`dep.toId === taskId`
edges, in dependency-list order), then append the id to the order when the
task map has it.  State is `(visited, result)`. -/
def visitNode (hasTask : TaskId → Bool) (deps : List Dependency) :
    Nat → List TaskId × List TaskId → TaskId → List TaskId × List TaskId
  | 0, st, _ => st
  | fuel + 1, st, taskId =>
    if st.1.contains taskId then st
    else
      let st1 := (deps.filter (fun dep => dep.toId == taskId)).foldl
        (fun acc dep => visitNode hasTask deps fuel acc dep.fromId)
        (taskId :: st.1, st.2)
      if hasTask taskId then (st1.1, st1.2 ++ [taskId]) else st1

/-- The topological order `autoScheduleTasks` computes (as a list of ids of
the `result` array's tasks). -/
def topoOrderIds (tasksCopy : List Task) (deps : List Dependency) : List TaskId :=
  (tasksCopy.foldl
    (fun st t => if st.1.contains t.id then st else
      visitNode (fun tid => (buildMap tasksCopy).any (fun p => p.1 == tid)) deps
        (tasksCopy.length + deps.length + 1) st t.id)
    (([] : List TaskId), ([] : List TaskId))).2

/-- The date-adjustment body run for one task of `result`, against the
current task map: collect the incoming dependencies, take the latest
predecessor end date (seed: the epoch, day 0), and when that is a real date
(`getTime() > 0`) overwrite the task's dates with
`newStart = maxEnd + 1 day`, `newEnd = newStart + duration`. -/
def scheduleStep (deps : List Dependency) (m : List (TaskId × Task))
    (tid : TaskId) : List (TaskId × Task) :=
  match mapGet m tid with
  | none => m
  | some task =>
    let incomingDeps := deps.filter (fun dep => dep.toId == tid)
    if incomingDeps.length == 0 then m
    else
      let maxEndDate := incomingDeps.foldl
        (fun acc dep =>
          match mapGet m dep.fromId with
          | none => acc
          | some predecessor =>
            if predecessor.endDate > acc then predecessor.endDate else acc)
        (0 : Int)
      if maxEndDate > 0 then
        let newStartDate := DateUtils.addDays maxEndDate 1
        let duration := calculateDuration task
        let newEndDate := DateUtils.addDays newStartDate duration
        mapSet m tid { task with start := newStartDate, endDate := newEndDate }
      else m

/-- `TaskUtils.autoScheduleTasks(tasks, dependencies)`: copy the tasks, build
the id map, topologically order by predecessors, then walk the order
adjusting dates in place (each task object is shared between `result` and
the map, so updated predecessor dates are seen by later tasks).  The
`hasCyclicDependencies` pre-check only logs a warning and is state-free, so
it is not modelled.  Returns the `result` array after the adjustments. -/
def autoScheduleTasks (tasks : List Task) (deps : List Dependency) : List Task :=
  let tasksCopy := tasks
  let order := topoOrderIds tasksCopy deps
  let finalMap := order.foldl (scheduleStep deps) (buildMap tasksCopy)
  order.filterMap (fun tid => mapGet finalMap tid)

/-- The `maxEndDate` the date-adjustment loop of `autoScheduleTasks` computes
for `tid` against the map `m`: the latest end date among the predecessors
found in the map, seeded with day 0 (the epoch, `new Date(0)`). -/
def maxEndIn (deps : List Dependency) (m : List (TaskId × Task)) (tid : TaskId) : Int :=
  (deps.filter (fun dep => dep.toId == tid)).foldl
    (fun acc dep =>
      match mapGet m dep.fromId with
      | none => acc
      | some predecessor =>
        if predecessor.endDate > acc then predecessor.endDate else acc)
    (0 : Int)

/-- The task map after the whole date-adjustment loop of
`autoScheduleTasks` has run. -/
def finalMap (tasks : List Task) (deps : List Dependency) : List (TaskId × Task) :=
  (topoOrderIds tasks deps).foldl (scheduleStep deps) (buildMap tasks)

/-- Every task in the map keeps its key as id and the `end - start`
duration of some input task with that id. -/
def DurPreserved (tasks : List Task) (m : List (TaskId × Task)) : Prop :=
  ∀ k v, mapGet m k = some v →
    v.id = k ∧ ∃ t ∈ tasks, t.id = k ∧ v.endDate - v.start = t.endDate - t.start

end TaskUtils

/-- View modes (types.ts; the concrete value set is immaterial to the claims). -/
inductive ViewMode where
  | day
  | week
  | month
  | quarter
  | year
deriving DecidableEq, Repr

/-- `ViewSettings` of StateManager.ts. -/
structure ViewSettings where
  mode : ViewMode
  scrollPosition : Int
  zoomLevel : Int
  taskListWidth : Int
  timelineWidth : Int
  startDate : Option Int := none
  endDate : Option Int := none
  scale : Option Int := none
deriving DecidableEq, Repr

/-- `VirtualScrollConfig` of StateManager.ts. -/
structure VirtualScrollConfig where
  startIndex : Int
  endIndex : Int
  visibleCount : Int
  bufferSize : Int
  totalHeight : Int
  rowHeight : Int
deriving DecidableEq, Repr

/-- `GanttConfig` of StateManager.ts. -/
structure GanttConfig where
  columnWidth : Int
  rowHeight : Int
  showWeekends : Bool
  showToday : Bool
  showRowLines : Bool
  showColumnLines : Bool
  enableDependencies : Bool
  enableDragging : Bool
  enableResizing : Bool
  enableProgress : Bool
  respectDependencies : Bool
  locale : String
deriving DecidableEq, Repr

/-- A resource record (types.ts); only carried, never computed with. -/
structure Resource where
  id : String
  name : String
  color : Option String := none
  role : Option String := none
  cost : Option Int := none
  availability : Option Int := none
deriving DecidableEq, Repr

/-- `StateManagerState`: the canonical state snapshot. -/
structure StateManagerState where
  tasks : List Task
  dependencies : List Dependency
  selectedTaskIds : List TaskId
  viewSettings : ViewSettings
  virtualScroll : VirtualScrollConfig
  config : GanttConfig
  resources : Option (List Resource) := none
deriving DecidableEq, Repr

/-- `CachedTask`: a task enriched with the derived dependency index, level,
visibility and duration (the spread task fields are kept in `task`; the
`layout` field is renderer-owned and never set by the core, so omitted). -/
structure CachedTask where
  task : Task
  dependencies : List TaskId
  dependents : List TaskId
  level : Int
  visible : Bool
  duration : Int
deriving DecidableEq, Repr

/-- The typed action protocol of `dispatch` (the `ActionType` tags with the
payload shapes the `_handleAction` switch destructures). -/
inductive GanttAction where
  | addTask (payload : Task)
  | updateTask (taskId : TaskId) (updates : PartialTask)
  | deleteTask (taskId : TaskId)
  | moveTask (taskId : TaskId) (newStart newEnd : Int)
  | addDependency (payload : Dependency)
  | deleteDependency (fromId toId : TaskId)
  | changeView (mode : ViewMode)
  | setDates (startDate endDate : Int)
  | selectTask (taskId : TaskId)
  | deselectTask (taskId : TaskId)
deriving DecidableEq, Repr

/-- Shallow merge `{...task, ...updates}` of an UPDATE_TASK payload. -/
def mergePatch (t : Task) (p : PartialTask) : Task :=
  { id := p.id.getD t.id
    name := p.name.getD t.name
    start := p.start.getD t.start
    endDate := p.endDate.getD t.endDate
    type := p.type.getD t.type
    progress := p.progress.getD t.progress
    color := p.color.getD t.color
    collapsed := p.collapsed.getD t.collapsed
    draggable := p.draggable.getD t.draggable
    resizable := p.resizable.getD t.resizable
    readonly := p.readonly.getD t.readonly
    dependencies := p.dependencies.getD t.dependencies
    dependsOn := p.dependsOn.getD t.dependsOn
    parentId := match p.parentId with
      | some pid => some pid
      | none => t.parentId
    assignees := p.assignees.getD t.assignees
    assignee := match p.assignee with
      | some a => some a
      | none => t.assignee
    children := p.children.getD t.children
    metadata := p.metadata.getD t.metadata
    critical := p.critical.getD t.critical }

/-- The StateManager.  `taskCache`/`dependencyCache` are the derived caches;
`notifyCount` records how many synchronous notification rounds the manager
has run (the subscriber callbacks themselves are opaque to the core, so the
model keeps only the fact of each notification). -/
structure StateManager where
  state : StateManagerState
  history : List StateManagerState := []
  future : List StateManagerState := []
  maxHistorySize : Nat := 10
  taskCache : List (TaskId × CachedTask) := []
  dependencyCache : List (String × Dependency) := []
  batchUpdate : Bool := false
  pendingActions : List GanttAction := []
  notifyCount : Nat := 0
deriving DecidableEq, Repr

namespace StateManager

/-- `Map.set` over the task cache (overwrite-in-place on an existing key). -/
def cacheSet (m : List (TaskId × CachedTask)) (k : TaskId) (v : CachedTask) :
    List (TaskId × CachedTask) :=
  match m with
  | [] => [(k, v)]
  | (k', v') :: rest => if k' == k then (k, v) :: rest else (k', v') :: cacheSet rest k v

/-- `this._taskCache.get(k)`. -/
def cacheGet (m : List (TaskId × CachedTask)) (k : TaskId) : Option CachedTask :=
  (m.find? (fun p => p.1 == k)).map (·.2)

/-- `StateManager._calculateTaskDuration`: absolute whole-day difference,
rounded up (`Math.ceil` of an exact whole number of days is the identity). -/
def calculateTaskDurationSM (task : Task) : Int :=
  ((task.endDate - task.start).natAbs : Nat)

/-- The level-computation DFS (`_calculateTaskLevels`): raise the node's
cached level to the maximum of its current value and the inherited one, then
recurse into hierarchy children (`parentId` scan) with `level + 1` and into
dependency successors with the raised level `+ 1`.  `visiting` guards
cycles (warn-and-return); `visited` is shared; both early returns skip the
final `visited` insertion exactly as the source's control flow does. -/
def calcLevelNode (tasks : List Task) :
    Nat → List TaskId → (List (TaskId × CachedTask) × List TaskId) → TaskId → Int →
      List (TaskId × CachedTask) × List TaskId
  | 0, _, st, _, _ => st
  | fuel + 1, visiting, st, taskId, level =>
    if visiting.contains taskId then st
    else if st.2.contains taskId &&
        (match cacheGet st.1 taskId with
         | some ct => decide (ct.level ≥ level)
         | none => false) then st
    else
      let st1 : List (TaskId × CachedTask) × List TaskId :=
        match cacheGet st.1 taskId with
        | none => st
        | some ct =>
          let newLevel := max ct.level level
          let withLevel : List (TaskId × CachedTask) × List TaskId :=
            (cacheSet st.1 taskId { ct with level := newLevel }, st.2)
          let afterChildren := (tasks.filter (fun t => t.parentId == some taskId)).foldl
            (fun (acc : List (TaskId × CachedTask) × List TaskId) (t : Task) =>
              calcLevelNode tasks fuel (taskId :: visiting) acc t.id (level + 1))
            withLevel
          ct.dependencies.foldl
            (fun (acc : List (TaskId × CachedTask) × List TaskId) depId =>
              calcLevelNode tasks fuel (taskId :: visiting) acc depId (newLevel + 1))
            afterChildren
      (st1.1, taskId :: st1.2)

/-- The recursive `setChildVisibility` of `_updateTaskVisibility`. -/
def setChildVisibility (tasks : List Task) :
    Nat → List (TaskId × CachedTask) → TaskId → Bool → List (TaskId × CachedTask)
  | 0, cache, _, _ => cache
  | fuel + 1, cache, taskId, visible =>
    tasks.foldl
      (fun cache t =>
        if t.parentId == some taskId then
          match cacheGet cache t.id with
          | none => cache
          | some ct =>
            let cache1 := cacheSet cache t.id { ct with visible := visible }
            if t.children.length > 0 then
              setChildVisibility tasks fuel cache1 t.id (visible && !t.collapsed)
            else cache1
        else cache)
      cache

/-- `_updateTaskCache` as run from `_initializeCache`: since the cache was
just cleared, the `_shouldUpdateTaskCache` dirty check always fires and the
rebuild is unconditional — base entries (level 0, visible, duration), then
dependency links (deduplicated), then levels from every root
(`!t.parentId`), then visibility from every collapsed parent. -/
def buildTaskCache (s : StateManagerState) : List (TaskId × CachedTask) :=
  let base := s.tasks.foldl
    (fun c t => cacheSet c t.id
      { task := t, dependencies := [], dependents := [], level := 0,
        visible := true, duration := calculateTaskDurationSM t })
    []
  let linked := s.dependencies.foldl
    (fun c dep =>
      match cacheGet c dep.fromId, cacheGet c dep.toId with
      | some fromTask, some _ =>
        let c1 := if fromTask.dependencies.contains dep.toId then c
          else cacheSet c dep.fromId
            { fromTask with dependencies := fromTask.dependencies ++ [dep.toId] }
        match cacheGet c1 dep.toId with
        | some toTask1 =>
          if toTask1.dependents.contains dep.fromId then c1
          else cacheSet c1 dep.toId
            { toTask1 with dependents := toTask1.dependents ++ [dep.fromId] }
        | none => c1
      | _, _ => c)
    base
  let fuel := (s.tasks.length + s.dependencies.length + 1) * (s.tasks.length + 1)
  let leveled := ((s.tasks.filter (fun t => !(optTruthy t.parentId))).foldl
    (fun st t => calcLevelNode s.tasks fuel [] st t.id 0)
    (linked, ([] : List TaskId))).1
  let collapsedParents := (s.tasks.filter
    (fun t => t.collapsed && t.children.length > 0)).map (·.id)
  collapsedParents.foldl
    (fun c pid => setChildVisibility s.tasks (s.tasks.length + 1) c pid false)
    leveled

/-- `_updateDependencyCache` as run from `_initializeCache` (always rebuilt
after the clear), keyed by the template string `fromId-toId`. -/
def buildDependencyCache (deps : List Dependency) : List (String × Dependency) :=
  deps.foldl
    (fun c dep =>
      let key := toString dep.fromId ++ "-" ++ toString dep.toId
      match c.find? (fun p => p.1 == key) with
      | some _ => (c.filter (fun p => p.1 != key)) ++ [(key, dep)]
      | none => c ++ [(key, dep)])
    []

/-- Count of visible cached tasks (`getVisibleTaskCount`). -/
def visibleTaskCount (cache : List (TaskId × CachedTask)) : Nat :=
  (cache.filter (fun p => p.2.visible)).length

/-- `_calculateVirtualScrollMetrics`: recompute `totalHeight`,
`startIndex`, `endIndex`, `rowHeight` on the state's `virtualScroll` in
place, from the visible-task count, scroll offset and row height. -/
def calculateVirtualScrollMetrics (s : StateManagerState)
    (cache : List (TaskId × CachedTask)) : StateManagerState :=
  let vs := s.virtualScroll
  let rowHeight := s.config.rowHeight
  let totalHeight := (visibleTaskCount cache : Int) * rowHeight
  let scrollTop := s.viewSettings.scrollPosition
  let visibleStartIndex := max 0 (scrollTop.fdiv rowHeight - vs.bufferSize)
  let visibleEndIndex := min (s.tasks.length : Int)
    (visibleStartIndex + vs.visibleCount + 2 * vs.bufferSize)
  { s with virtualScroll :=
    { vs with totalHeight := totalHeight, startIndex := visibleStartIndex,
              endIndex := visibleEndIndex, rowHeight := rowHeight } }

/-- `_initializeCache`: clear and rebuild both caches, then recompute the
virtual-scroll metrics (the only part of `_state` this touches is
`virtualScroll`). -/
def initializeCache (m : StateManager) : StateManager :=
  let cache := buildTaskCache m.state
  { m with taskCache := cache,
           dependencyCache := buildDependencyCache m.state.dependencies,
           state := calculateVirtualScrollMetrics m.state cache }

/-- `_notifySubscribers`: one synchronous notification round. -/
def notifySubscribers (m : StateManager) : StateManager :=
  { m with notifyCount := m.notifyCount + 1 }

/-- `_saveToHistory`: deep-clone the state onto the history (append), clear
the redo stack, and drop the oldest entry when over capacity. -/
def saveToHistory (m : StateManager) : StateManager :=
  let h := m.history ++ [m.state]
  let h' := if m.maxHistorySize < h.length then h.drop 1 else h
  { m with history := h', future := [] }

/-- `_handleAction`: the action switch, acting on the state snapshot. -/
def handleAction (s : StateManagerState) (action : GanttAction) : StateManagerState :=
  match action with
  | GanttAction.addTask payload => { s with tasks := s.tasks ++ [payload] }
  | GanttAction.updateTask taskId updates =>
      { s with tasks := updateFirst s.tasks taskId (fun t => mergePatch t updates) }
  | GanttAction.deleteTask taskId =>
      { s with tasks := s.tasks.filter (fun t => t.id != taskId),
               dependencies := (s.dependencies.filter
                 (fun d => d.fromId != taskId && d.toId != taskId)) }
  | GanttAction.moveTask taskId newStart newEnd =>
      { s with tasks := (updateFirst s.tasks taskId
          (fun t => { t with start := newStart, endDate := newEnd })) }
  | GanttAction.addDependency payload =>
      { s with dependencies := s.dependencies ++ [payload] }
  | GanttAction.deleteDependency fromId toId =>
      { s with dependencies := (s.dependencies.filter
          (fun d => !(d.fromId == fromId && d.toId == toId))) }
  | GanttAction.changeView mode =>
      { s with viewSettings := { s.viewSettings with mode := mode } }
  | GanttAction.setDates _ _ => s
  | GanttAction.selectTask taskId =>
      if s.selectedTaskIds.contains taskId then s
      else { s with selectedTaskIds := s.selectedTaskIds ++ [taskId] }
  | GanttAction.deselectTask taskId =>
      { s with selectedTaskIds := s.selectedTaskIds.filter (fun i => i != taskId) }

/-- `dispatch(action)`: queue the action while batching; otherwise
checkpoint, apply, rebuild caches, notify. -/
def dispatch (m : StateManager) (action : GanttAction) : StateManager :=
  if m.batchUpdate then { m with pendingActions := m.pendingActions ++ [action] }
  else
    let m1 := saveToHistory m
    let m2 := { m1 with state := handleAction m1.state action }
    notifySubscribers (initializeCache m2)

/-- `beginBatchUpdate()`. -/
def beginBatchUpdate (m : StateManager) : StateManager :=
  { m with batchUpdate := true, pendingActions := [] }

/-- `commitBatchUpdate()`: bail out (only resetting the flag) when not
batching or nothing is queued; otherwise one checkpoint, all queued actions
in order, flag reset, cache rebuild, one notification. -/
def commitBatchUpdate (m : StateManager) : StateManager :=
  if !m.batchUpdate || m.pendingActions.length == 0 then
    { m with batchUpdate := false }
  else
    let m1 := saveToHistory m
    let m2 := { m1 with state := m1.pendingActions.foldl handleAction m1.state,
                        batchUpdate := false, pendingActions := [] }
    notifySubscribers (initializeCache m2)

/-- `undo()`: `false` on empty history; else push the current state onto
`future`, pop the history top into the state, rebuild caches, notify. -/
def undo (m : StateManager) : Bool × StateManager :=
  if m.history.length == 0 then (false, m)
  else
    let m1 := { m with future := m.future ++ [m.state],
                       state := m.history.getLastD m.state,
                       history := m.history.dropLast }
    (true, notifySubscribers (initializeCache m1))

/-- `redo()`: the mirror of `undo` against `future`. -/
def redo (m : StateManager) : Bool × StateManager :=
  if m.future.length == 0 then (false, m)
  else
    let m1 := { m with history := m.history ++ [m.state],
                       state := m.future.getLastD m.state,
                       future := m.future.dropLast }
    (true, notifySubscribers (initializeCache m1))

/-- `undoStackSize`. -/
def undoStackSize (m : StateManager) : Nat := m.history.length

/-- `redoStackSize`. -/
def redoStackSize (m : StateManager) : Nat := m.future.length

/-- The constructor defaults for `viewSettings`. -/
def defaultViewSettings : ViewSettings :=
  { mode := ViewMode.day, scrollPosition := 0, zoomLevel := 1,
    taskListWidth := 300, timelineWidth := 0 }

/-- The constructor defaults for `virtualScroll`. -/
def defaultVirtualScroll : VirtualScrollConfig :=
  { startIndex := 0, endIndex := 0, visibleCount := 50, bufferSize := 20,
    totalHeight := 0, rowHeight := 40 }

/-- The constructor defaults for `config`. -/
def defaultConfig : GanttConfig :=
  { columnWidth := 40, rowHeight := 40, showWeekends := true, showToday := true,
    showRowLines := true, showColumnLines := true, enableDependencies := true,
    enableDragging := true, enableResizing := true, enableProgress := true,
    respectDependencies := true, locale := "zh-CN" }

/-- `new StateManager({tasks, dependencies})`: defaults plus the supplied
task/dependency lists, followed by the constructor's `_initializeCache()`. -/
def mkStateManager (tasks : List Task) (deps : List Dependency) : StateManager :=
  initializeCache
    { state :=
        { tasks := tasks, dependencies := deps, selectedTaskIds := [],
          viewSettings := defaultViewSettings,
          virtualScroll := defaultVirtualScroll, config := defaultConfig } }

end StateManager

/-! ## Harness definitions: call sequences, reachability, fixtures -/

/-- Fold a list of `createDependency` calls `(fromId, toId, type, lag)` over a
manager, keeping the updated manager of each call. -/
def applyCreateDependencies (tm : TaskManager)
    (calls : List (TaskId × TaskId × DependencyType × Int)) : TaskManager :=
  calls.foldl
    (fun acc c => (acc.createDependency c.1 c.2.1 c.2.2.1 c.2.2.2).2) tm

/-- A `createTask` call: the `new Date()` of the call (`today`) and the
supplied partial. -/
abbrev CreateCall := Int × PartialTask

/-- Fold a list of `createTask` calls over a manager. -/
def applyCreates (tm : TaskManager) (calls : List CreateCall) : TaskManager :=
  calls.foldl (fun acc c => (acc.createTask c.1 c.2).2) tm

/-- Every call of the sequence that supplies a (truthy) explicit id supplies
one that is not in use at that point of the sequence. -/
def explicitFreshB : TaskManager → List CreateCall → Bool
  | _, [] => true
  | tm, c :: rest =>
      (!(optTruthy c.2.id) || !((tm.tasks.map (·.id)).contains (c.2.id.getD 0))) &&
      explicitFreshB (tm.createTask c.1 c.2).2 rest

/-- Dispatch a list of actions in order. -/
def dispatchList (m : StateManager) (acts : List GanttAction) : StateManager :=
  acts.foldl StateManager.dispatch m

/-- `undo()` applied `n` times (discarding the returned booleans). -/
def undoIter (m : StateManager) : Nat → StateManager
  | 0 => m
  | n + 1 => undoIter (StateManager.undo m).2 n

/-- `redo()` applied `n` times (discarding the returned booleans). -/
def redoIter (m : StateManager) : Nat → StateManager
  | 0 => m
  | n + 1 => redoIter (StateManager.redo m).2 n

/-- One downward hierarchy edge: the task list holds a task with id `b`
whose `parentId` is `a`. -/
def parentEdge (tasks : List Task) (a b : TaskId) : Prop :=
  ∃ t ∈ tasks, t.id = b ∧ t.parentId = some a

/-- `Reaches tasks a b`: `b` is reachable from `a` via a `parentId` chain
through the task list (reflexively) — the claim-level notion of "the task
and all its descendants". -/
inductive Reaches (tasks : List Task) : TaskId → TaskId → Prop where
  | refl (a : TaskId) : Reaches tasks a a
  | step {a b c : TaskId} : parentEdge tasks a b → Reaches tasks b c → Reaches tasks a c

/-- `Reaches` with the chain length made explicit (head-first). -/
inductive ReachesN (tasks : List Task) : Nat → TaskId → TaskId → Prop where
  | refl (a : TaskId) : ReachesN tasks 0 a a
  | step {n : Nat} {a b c : TaskId} :
      parentEdge tasks a b → ReachesN tasks n b c → ReachesN tasks (n + 1) a c

/-- Sum of the `progress` fields, as the source's
`reduce((sum, task) => sum + (task.progress || 0), 0)` computes it. -/
def sumProgress (l : List Task) : Int :=
  l.foldl (fun sum t => sum + t.progress) 0

/-- Modelled from the claim wording of C5 (for comparison with the code):
the mean over the project's direct children and all of its descendants with
every contributing task counted exactly once (deduplicated by id), rounded
to the nearest integer. -/
def specProjectProgress (tm : TaskManager) (projectId : TaskId) : Int :=
  match tm.tasks.find? (fun t => t.id == projectId && t.type == TaskType.project) with
  | none => 0
  | some project =>
    let contributors :=
      (TaskManager.resolveChildren tm.tasks project ++
        tm.getDescendantTasks projectId).foldl
        (fun acc t => if acc.any (fun u => u.id == t.id) then acc else acc ++ [t]) []
    if contributors.length == 0 then 0
    else jsRoundDiv (sumProgress contributors) contributors.length

/-- A neutral concrete task record for scenarios (the field values a bare
`createTask {}` would produce, with id 0 and day-number dates 0/1). -/
def baseTask : Task :=
  { id := 0, name := "", start := 0, endDate := 1, type := TaskType.task,
    progress := 0, color := "#4e85c5", collapsed := false, draggable := true,
    resizable := true, readonly := false, dependencies := [], dependsOn := [],
    parentId := none, assignees := [], assignee := none, children := [],
    metadata := [], critical := false }

/-- C5 scenario: project 1 with direct child 2 (progress 100) and grandchild
3 under 2 (progress 0), built through the public `createTask` API. -/
def c5Manager : TaskManager :=
  (((({} : TaskManager).createTask 0
      { id := some 1, type := some TaskType.project }).2.createTask 0
      { id := some 2, parentId := some 1, progress := some 100 }).2.createTask 0
      { id := some 3, parentId := some 2, progress := some 0 }).2

/-- A manager holding just the two tasks 1 and 2 (no dependencies). -/
def c7Base : TaskManager :=
  ((({} : TaskManager).createTask 0 { id := some 1 }).2.createTask 0
      { id := some 2 }).2

/-- C7 scenario: tasks 1 and 2 with the dependency (1,2,finish_to_start)
already present before the two calls under scrutiny. -/
def c7Manager : TaskManager :=
  (c7Base.createDependency 1 2 DependencyType.finish_to_start 0).2

/-- C9 scenario: two `createTask` calls both supplying the explicit id 1. -/
def c9Manager : TaskManager :=
  ((({} : TaskManager).createTask 0 { id := some 1 }).2.createTask 0
      { id := some 1 }).2

/-- A fresh `StateManager` over empty task/dependency lists. -/
def freshSM : StateManager := StateManager.mkStateManager [] []

/-- C8 capacity scenario: ten plain dispatches fill the history ring of a
fresh manager to its default capacity of 10. -/
def c8Full : StateManager :=
  dispatchList freshSM ((List.range 10).map GanttAction.selectTask)

/-- C4 scenario tasks: `{id 1, 2024-01-01 .. 2024-01-05}` and
`{id 2, 2024-01-03 .. 2024-01-08}`. -/
def c4Task1 : Task :=
  { baseTask with id := 1, start := civilToDays 2024 1 1, endDate := civilToDays 2024 1 5 }

/-- See `c4Task1`. -/
def c4Task2 : Task :=
  { baseTask with id := 2, start := civilToDays 2024 1 3, endDate := civilToDays 2024 1 8 }

/-- The C4 dependency `1 → 2` (finish_to_start). -/
def c4Dep : Dependency :=
  { fromId := 1, toId := 2, type := DependencyType.finish_to_start, lag := 0 }

/-- C4 counterexample fixture: task 1 ends on 1969-12-31 (the day before the
epoch sentinel `new Date(0)` used to seed `maxEndDate`). -/
def c4PreTask1 : Task :=
  { baseTask with id := 1, start := civilToDays 1969 12 28, endDate := civilToDays 1969 12 31 }

/-- See `c4PreTask1`; task 2 has ordinary 2024 dates and predecessor 1. -/
def c4PreTask2 : Task :=
  { baseTask with id := 2, start := civilToDays 2024 1 3, endDate := civilToDays 2024 1 8 }

/-- The id-uniqueness invariant of a `TaskManager`: task ids are pairwise
distinct, every positive id below the `nextId` counter is in use, and the
counter is live (its initial value is 1). -/
def TMInv (tm : TaskManager) : Prop :=
  (tm.tasks.map (·.id)).Nodup ∧
  (∀ k : Nat, 0 < k → k < tm.nextId → k ∈ tm.tasks.map (·.id)) ∧
  1 ≤ tm.nextId

/-- C6 scenario: root task 1 with child 2 and grandchild 3, an unrelated
task 4, and a dependency 4→2 (a `setTasks`/`setDependencies` state). -/
def c6Manager : TaskManager :=
  { tasks :=
      [{ baseTask with id := 1, children := [2] },
       { baseTask with id := 2, parentId := some 1, children := [3] },
       { baseTask with id := 3, parentId := some 2 },
       { baseTask with id := 4 }],
    dependencies := [{ fromId := 4, toId := 2, type := DependencyType.finish_to_start, lag := 0 }],
    options := {}, nextId := 5 }

/-- An explicit depth witness for the `parentId` forest of `c6Manager`. -/
def c6Depth : TaskId → Nat := fun i => if i = 2 then 1 else if i = 3 then 2 else 0

/-! ## General lemmas -/

/-- When the ISO parse fails and the string does not split into three parts
at `-`, `parseDate` falls back to the current date. -/
theorem parseDateStr_fallback_today (today : Int) (s : String)
    (h0 : s.toList.isEmpty = false)
    (h1 : DateUtils.jsDateParse s.toList = none)
    (h2 : (DateUtils.splitOnDash s.toList).length ≠ 3) :
    DateUtils.parseDateStr today s = some today := by
  unfold DateUtils.parseDateStr
  rw [h0, h1]
  simp only [Bool.false_eq_true, if_false]
  rcases hsp : DateUtils.splitOnDash s.toList with _ | ⟨a, _ | ⟨b, _ | ⟨c, _ | _⟩⟩⟩ <;>
    simp_all

/-- `updateFirst` with an id-preserving update preserves the id sequence. -/
theorem updateFirst_map_id (ts : List Task) (tid : TaskId) (f : Task → Task)
    (hf : ∀ t, (f t).id = t.id) :
    (updateFirst ts tid f).map (·.id) = ts.map (·.id) := by
  induction ts with
  | nil => rfl
  | cons t rest ih =>
    unfold updateFirst
    by_cases h : t.id == tid
    · simp [h, hf]
    · simp [h, ih]

/-- The dependency-index rebuild touches only the per-task caches: the id
sequence of the task list is unchanged. -/
theorem updateTaskDependencies_map_id (ts : List Task) (ds : List Dependency) :
    (TaskManager.updateTaskDependencies ts ds).map (·.id) = ts.map (·.id) := by
  unfold TaskManager.updateTaskDependencies
  have step : ∀ (ds' : List Dependency) (ts0 : List Task),
      ((ds'.foldl (fun ts dep =>
        updateFirst
          (updateFirst ts dep.fromId
            (fun t => { t with dependencies := t.dependencies ++ [dep.toId] }))
          dep.toId
          (fun t => { t with dependsOn := t.dependsOn ++ [dep.fromId] })) ts0).map (·.id))
        = ts0.map (·.id) := by
    intro ds'
    induction ds' with
    | nil => intro ts0; rfl
    | cons d rest ih =>
      intro ts0
      simp only [List.foldl_cons]
      rw [ih, updateFirst_map_id, updateFirst_map_id] <;> intro t <;> rfl
  rw [step]
  simp

/-- Existence of a task with a given id only depends on the id sequence. -/
theorem tasks_any_id_congr (ts ts' : List Task)
    (h : ts.map (·.id) = ts'.map (·.id)) (tid : TaskId) :
    ts.any (fun t => t.id == tid) = ts'.any (fun t => t.id == tid) := by
  have key : ∀ l : List Task, l.any (fun t => t.id == tid) =
      (l.map (·.id)).any (fun i => i == tid) := by
    intro l; induction l <;> simp_all
  rw [key, key, h]

/-- `checkCircularDependencies` reads only the dependency list and the task
id sequence, so it is invariant under any change that preserves both (in
particular the per-task cache rebuilds). -/
theorem checkCircular_congr (tm1 tm2 : TaskManager)
    (hids : tm1.tasks.map (·.id) = tm2.tasks.map (·.id))
    (hdeps : tm1.dependencies = tm2.dependencies) :
    tm1.checkCircularDependencies = tm2.checkCircularDependencies := by
  unfold TaskManager.checkCircularDependencies
  have hlen : tm1.tasks.length = tm2.tasks.length := by
    have h2 := congrArg List.length hids
    simpa using h2
  rw [hdeps, hids, hlen]

/-! ## Claim C2 (code_bug) -/

/-- C2: the claim says `createTask` throws an `InvalidDateError` on an
unparseable date string and leaves the task list unchanged, and the
repository's own test (`TaskManager.test.ts`, "should throw error with
invalid dates") expects a throw for start `'invalid-date'` — but no path in
`createTask`/`parseDate` throws: `parseDate('invalid-date')` falls back to
the current date (`new Date()`), the call returns normally, and the task
list grows by one, with the created task starting today. -/
theorem createTask_invalid_date_does_not_throw (today : Int) :
    DateUtils.parseDateStr today "invalid-date" = some today ∧
    ((TaskManager.createTask {} today
        { name := some "Invalid Task", start := DateUtils.parseDateStr today "invalid-date",
          endDate := some (civilToDays 2024 1 5) }).2.tasks.length = 1 ∧
     (TaskManager.createTask {} today
        { name := some "Invalid Task", start := DateUtils.parseDateStr today "invalid-date",
          endDate := some (civilToDays 2024 1 5) }).1.start = today) := by
  have hp : DateUtils.parseDateStr today "invalid-date" = some today :=
    parseDateStr_fallback_today today "invalid-date" (by decide) (by decide) (by decide)
  refine ⟨hp, ?_, ?_⟩ <;> rw [hp] <;> rfl

/-! ## Claim C10 (confirmed) -/

/-- C10: `commitBatchUpdate()` with nothing queued — in particular whenever
the manager is not in batch mode — only clears the batching flag: the state
snapshot, the undo history, the redo stack, both derived caches and the
notification count are all unchanged, and no subscriber is notified. -/
theorem commitBatchUpdate_empty_is_noop (m : StateManager)
    (h : m.pendingActions = [] ∨ m.batchUpdate = false) :
    (StateManager.commitBatchUpdate m).state = m.state ∧
    (StateManager.commitBatchUpdate m).history = m.history ∧
    (StateManager.commitBatchUpdate m).future = m.future ∧
    (StateManager.commitBatchUpdate m).taskCache = m.taskCache ∧
    (StateManager.commitBatchUpdate m).dependencyCache = m.dependencyCache ∧
    (StateManager.commitBatchUpdate m).notifyCount = m.notifyCount ∧
    (StateManager.commitBatchUpdate m).batchUpdate = false := by
  unfold StateManager.commitBatchUpdate
  rcases h with h | h <;> simp [h]

/-- Witness for C10 at a concrete manager (a fresh manager put into batch
mode, so the not-batching disjunct is false and the empty queue does the
work). -/
theorem commitBatchUpdate_empty_is_noop_witness :
    (StateManager.beginBatchUpdate freshSM).pendingActions = [] ∧
    (StateManager.commitBatchUpdate (StateManager.beginBatchUpdate freshSM)).state =
      (StateManager.beginBatchUpdate freshSM).state ∧
    (StateManager.commitBatchUpdate (StateManager.beginBatchUpdate freshSM)).notifyCount =
      (StateManager.beginBatchUpdate freshSM).notifyCount :=
  ⟨rfl,
   (commitBatchUpdate_empty_is_noop (StateManager.beginBatchUpdate freshSM) (Or.inl rfl)).1,
   (commitBatchUpdate_empty_is_noop (StateManager.beginBatchUpdate freshSM)
     (Or.inl rfl)).2.2.2.2.2.1⟩

/-! ## Counterexamples for the corrected claims C3, C5, C7, C8, C9 -/

/-- C3 counterexample: on a fresh manager, dispatch one `ADD_TASK` mutation
(N = 1), then `undo()` once and `redo()` once: the resulting task list is
`[baseTask]`, not the empty list observed before the mutation — the
undo-then-redo sequence restores the *post*-mutation state, not the
pre-mutation one the claim asserts. -/
theorem undoN_redoN_is_not_initial_state :
    (redoIter (undoIter (dispatchList freshSM [GanttAction.addTask baseTask]) 1) 1).state.tasks
        = [baseTask] ∧
    freshSM.state.tasks = [] ∧
    (redoIter (undoIter (dispatchList freshSM [GanttAction.addTask baseTask]) 1) 1).state.tasks
        ≠ freshSM.state.tasks := by decide

/-- C5 counterexample: for a project (id 1) with one direct child (progress
100) and one grandchild (progress 0), the code averages `[100, 100, 0]` —
the direct child is enumerated both in the `children` cache and in the
descendant walk — giving 67, while counting every contributing task exactly
once (the claim, formalised by `specProjectProgress`) gives 50. -/
theorem calculateProjectProgress_counts_direct_children_twice :
    TaskManager.calculateProjectProgress c5Manager 1 = 67 ∧
    specProjectProgress c5Manager 1 = 50 ∧ (67 : Int) ≠ 50 := by decide

/-- C7 counterexample: tasks 1 and 2 both exist in `c7Manager` and the
dependency (1,2,finish_to_start) is already present; calling
`createDependency(1,2,finish_to_start)` twice returns the existing
dependency both times but grows the dependency list by 0, not by exactly 1
as the claim asserts for every pair of existing tasks. -/
theorem createDependency_twice_can_grow_by_zero :
    c7Manager.tasks.map (·.id) = [1, 2] ∧
    c7Manager.dependencies.length = 1 ∧
    ((c7Manager.createDependency 1 2 DependencyType.finish_to_start 0).2.createDependency 1 2
        DependencyType.finish_to_start 0).2.dependencies.length = 1 := by decide

/-- C8 counterexample: after ten plain dispatches the history ring of a
fresh manager holds 10 entries (its default capacity); a subsequent
begin–dispatch–commit batch evicts the oldest entry and `undoStackSize`
stays 10 instead of increasing by 1 as the claim asserts. -/
theorem commitBatchUpdate_at_capacity_does_not_increase_undoStackSize :
    StateManager.undoStackSize c8Full = 10 ∧ c8Full.maxHistorySize = 10 ∧
    StateManager.undoStackSize
      (StateManager.commitBatchUpdate
        (StateManager.dispatch (StateManager.beginBatchUpdate c8Full)
          (GanttAction.selectTask 99))) = 10 := by decide

/-- C9 counterexample: two `createTask` calls that both supply the explicit
id 1 are accepted unchecked, leaving two tasks with the same id — the
pairwise-distinctness the claim asserts for arbitrary sequences (with or
without explicit ids) fails. -/
theorem createTask_accepts_duplicate_explicit_ids :
    c9Manager.tasks.map (·.id) = [1, 1] ∧
    ¬ (c9Manager.tasks.map (·.id)).Nodup := by decide

/-! ## Claim C7 (corrected): amended idempotence -/

/-- C7 amended: when tasks `A` and `B` exist, no (`A`,`B`,`type`) dependency
is present yet, and the pushed dependency passes the cycle check, the first
`createDependency(A,B,type)` call returns the new dependency and grows the
list by exactly one, and the second call returns the identical dependency
while leaving the dependency list unchanged (so the growth across the two
calls is exactly one). -/
theorem createDependency_idempotent
    (tm : TaskManager) (A B : TaskId) (ty : DependencyType) (lag : Int)
    (hA : tm.tasks.any (fun t => t.id == A) = true)
    (hB : tm.tasks.any (fun t => t.id == B) = true)
    (hnew : tm.dependencies.find?
      (fun dep => dep.fromId == A && dep.toId == B && dep.type == ty) = none)
    (hacyc : (TaskManager.createDependencyPushed tm A B ty lag).2.checkCircularDependencies
      = false) :
    (tm.createDependency A B ty lag).1 = some ⟨A, B, ty, lag⟩ ∧
    (tm.createDependency A B ty lag).2.dependencies = tm.dependencies ++ [⟨A, B, ty, lag⟩] ∧
    ((tm.createDependency A B ty lag).2.createDependency A B ty lag).1 = some ⟨A, B, ty, lag⟩ ∧
    ((tm.createDependency A B ty lag).2.createDependency A B ty lag).2.dependencies =
      (tm.createDependency A B ty lag).2.dependencies := by
  have h1 : tm.createDependency A B ty lag =
      (some ⟨A, B, ty, lag⟩, (TaskManager.createDependencyPushed tm A B ty lag).2) := by
    unfold TaskManager.createDependency
    simp [hA, hB, hnew, hacyc]
    rfl
  have hids : (TaskManager.createDependencyPushed tm A B ty lag).2.tasks.map (·.id)
      = tm.tasks.map (·.id) := by
    unfold TaskManager.createDependencyPushed
    exact updateTaskDependencies_map_id tm.tasks (tm.dependencies ++ [⟨A, B, ty, lag⟩])
  have hA1 : ((TaskManager.createDependencyPushed tm A B ty lag).2.tasks.any
      (fun t => t.id == A)) = true := by
    rw [tasks_any_id_congr _ tm.tasks hids A]; exact hA
  have hB1 : ((TaskManager.createDependencyPushed tm A B ty lag).2.tasks.any
      (fun t => t.id == B)) = true := by
    rw [tasks_any_id_congr _ tm.tasks hids B]; exact hB
  have hfind1 : (TaskManager.createDependencyPushed tm A B ty lag).2.dependencies.find?
      (fun dep => dep.fromId == A && dep.toId == B && dep.type == ty) =
      some ⟨A, B, ty, lag⟩ := by
    show (tm.dependencies ++ [(⟨A, B, ty, lag⟩ : Dependency)]).find? _ = _
    rw [List.find?_append, hnew]
    simp
  have h2 : (TaskManager.createDependencyPushed tm A B ty lag).2.createDependency A B ty lag =
      (some ⟨A, B, ty, lag⟩, (TaskManager.createDependencyPushed tm A B ty lag).2) := by
    unfold TaskManager.createDependency
    simp [hA1, hB1, hfind1]
  rw [h1]
  refine ⟨rfl, rfl, ?_, ?_⟩ <;> rw [h2]

/-- Witness for the amended C7 at the concrete two-task manager with no
prior dependencies. -/
theorem createDependency_idempotent_witness :
    (c7Base.createDependency 1 2 DependencyType.finish_to_start 0).1 =
      some ⟨1, 2, DependencyType.finish_to_start, 0⟩ ∧
    (c7Base.createDependency 1 2 DependencyType.finish_to_start 0).2.dependencies =
      c7Base.dependencies ++ [⟨1, 2, DependencyType.finish_to_start, 0⟩] ∧
    ((c7Base.createDependency 1 2 DependencyType.finish_to_start 0).2.createDependency 1 2
        DependencyType.finish_to_start 0).2.dependencies =
      (c7Base.createDependency 1 2 DependencyType.finish_to_start 0).2.dependencies := by
  have h := createDependency_idempotent c7Base 1 2 DependencyType.finish_to_start 0
    (by decide) (by decide) (by decide) (by decide)
  exact ⟨h.1, h.2.1, h.2.2.2⟩

/-! ## Claim C1 (confirmed): acyclicity invariant -/

/-- With no dependencies the DFS of the cycle check can never flag a node:
the adjacency lists are all empty. -/
theorem hasCycleNode_adjOf_nil (fuel : Nat) (vis : List TaskId) (tid : TaskId) :
    (TaskManager.hasCycleNode (TaskManager.adjOf []) fuel vis [] tid).1 = false := by
  cases fuel with
  | zero => rfl
  | succ n =>
    unfold TaskManager.hasCycleNode
    by_cases h : tid ∈ vis <;> simp [h, TaskManager.adjOf]

/-- A manager with an empty dependency list has no circular dependencies. -/
theorem checkCircular_of_no_deps (tm : TaskManager) (h : tm.dependencies = []) :
    tm.checkCircularDependencies = false := by
  unfold TaskManager.checkCircularDependencies
  rw [h]
  unfold TaskManager.checkCircularAll
  have key : ∀ (ids : List TaskId) (fuel : Nat) (acc : Bool × List TaskId), acc.1 = false →
      (ids.foldl (fun acc tid =>
        if acc.1 then acc
        else TaskManager.hasCycleNode (TaskManager.adjOf []) fuel acc.2 [] tid) acc).1
        = false := by
    intro ids
    induction ids with
    | nil => intro fuel acc hacc; exact hacc
    | cons i rest ih =>
      intro fuel acc hacc
      rw [List.foldl_cons]
      have hred : (if acc.1 = true then acc
          else TaskManager.hasCycleNode (TaskManager.adjOf []) fuel acc.2 [] i) =
          TaskManager.hasCycleNode (TaskManager.adjOf []) fuel acc.2 [] i := by
        rw [hacc]; simp
      rw [hred]
      exact ih fuel _ (hasCycleNode_adjOf_nil fuel acc.2 i)
  exact key _ _ _ rfl

/-- Whenever `createDependency` returns `null`, the dependency list is left
exactly as it was: the missing-endpoint refusal never pushed anything, and
the cycle rollback popped precisely the dependency it had pushed. -/
theorem createDependency_none_deps_unchanged (tm : TaskManager)
    (f t : TaskId) (ty : DependencyType) (lag : Int)
    (h : (tm.createDependency f t ty lag).1 = none) :
    (tm.createDependency f t ty lag).2.dependencies = tm.dependencies := by
  by_cases hex : ((tm.tasks.any fun u => u.id == f) = true ∧
      (tm.tasks.any fun u => u.id == t) = true)
  · rcases hfind : tm.dependencies.find?
        (fun dep => dep.fromId == f && dep.toId == t && dep.type == ty) with _ | d
    · by_cases hchk : (tm.options.checkCircularDependencies &&
          (TaskManager.createDependencyPushed tm f t ty lag).2.checkCircularDependencies) = true
      · unfold TaskManager.createDependency
        rw [if_neg (not_not_intro hex), hfind]
        simp only [hchk, if_true]
        simp [TaskManager.createDependencyPushed, List.dropLast_concat]
      · exfalso
        unfold TaskManager.createDependency at h
        rw [if_neg (not_not_intro hex), hfind] at h
        simp only [hchk, if_false] at h
        exact Option.noConfusion h
    · unfold TaskManager.createDependency
      rw [if_neg (not_not_intro hex), hfind]
  · unfold TaskManager.createDependency
    rw [if_pos hex]

/-- One `createDependency` call keeps the full-graph cycle check `false`
(when the option is on, as it is by default): either the call changes
nothing, or it keeps an addition the check just cleared, or it rolls the
addition back to the previous — acyclic — dependency list.  The options are
untouched either way. -/
theorem createDependency_preserves_acyclic (tm : TaskManager)
    (f t : TaskId) (ty : DependencyType) (lag : Int)
    (hopt : tm.options.checkCircularDependencies = true)
    (hcf : tm.checkCircularDependencies = false) :
    (tm.createDependency f t ty lag).2.checkCircularDependencies = false ∧
    (tm.createDependency f t ty lag).2.options = tm.options := by
  unfold TaskManager.createDependency
  split
  · exact ⟨hcf, rfl⟩
  · split
    · exact ⟨hcf, rfl⟩
    · dsimp only
      by_cases hchk : (tm.options.checkCircularDependencies &&
          (TaskManager.createDependencyPushed tm f t ty lag).2.checkCircularDependencies) = true
      · rw [if_pos hchk]
        constructor
        · rw [← hcf]
          apply checkCircular_congr
          · show (TaskManager.updateTaskDependencies _ _).map (·.id) = _
            rw [updateTaskDependencies_map_id]
            show (TaskManager.updateTaskDependencies _ _).map (·.id) = _
            rw [updateTaskDependencies_map_id]
          · show ((tm.dependencies ++ [(⟨f, t, ty, lag⟩ : Dependency)]).dropLast) = _
            exact List.dropLast_concat
        · rfl
      · rw [if_neg hchk]
        rw [hopt] at hchk
        simp only [Bool.true_and] at hchk
        constructor
        · simpa using hchk
        · rfl

/-- C1: starting from a manager with no dependencies (cycle checking on, as
by default), every sequence of `createDependency` calls leaves
`checkCircularDependencies()` returning `false` — this holds after each call
since the calls list is universally quantified — and any call that returns
`null` leaves the dependency list exactly unchanged, so rejected
dependencies never remain. -/
theorem acyclicity_invariant (tm : TaskManager)
    (hdeps : tm.dependencies = [])
    (hopt : tm.options.checkCircularDependencies = true)
    (calls : List (TaskId × TaskId × DependencyType × Int)) :
    (applyCreateDependencies tm calls).checkCircularDependencies = false ∧
    (∀ f t ty lag,
      ((applyCreateDependencies tm calls).createDependency f t ty lag).1 = none →
      ((applyCreateDependencies tm calls).createDependency f t ty lag).2.dependencies =
        (applyCreateDependencies tm calls).dependencies) := by
  have main : ∀ (cs : List (TaskId × TaskId × DependencyType × Int)) (m : TaskManager),
      m.checkCircularDependencies = false → m.options.checkCircularDependencies = true →
      (applyCreateDependencies m cs).checkCircularDependencies = false ∧
      (applyCreateDependencies m cs).options.checkCircularDependencies = true := by
    intro cs
    induction cs with
    | nil => intro m h1 h2; exact ⟨h1, h2⟩
    | cons c rest ih =>
      intro m h1 h2
      have step := createDependency_preserves_acyclic m c.1 c.2.1 c.2.2.1 c.2.2.2 h2 h1
      have hfold : applyCreateDependencies m (c :: rest) =
          applyCreateDependencies (m.createDependency c.1 c.2.1 c.2.2.1 c.2.2.2).2 rest := rfl
      rw [hfold]
      exact ih _ step.1 (by rw [step.2]; exact h2)
  refine ⟨(main calls tm (checkCircular_of_no_deps tm hdeps) hopt).1, ?_⟩
  intro f t ty lag hnone
  exact createDependency_none_deps_unchanged _ f t ty lag hnone

/-- Witness for C1: two tasks, a call creating 1→2 and a call attempting the
cycle-closing 2→1 (which is rolled back); the check stays `false` and only
one dependency remains. -/
theorem acyclicity_invariant_witness :
    (applyCreateDependencies c7Base
      [(1, 2, DependencyType.finish_to_start, 0),
       (2, 1, DependencyType.finish_to_start, 0)]).checkCircularDependencies = false ∧
    (applyCreateDependencies c7Base
      [(1, 2, DependencyType.finish_to_start, 0),
       (2, 1, DependencyType.finish_to_start, 0)]).dependencies.length = 1 := by
  have h := acyclicity_invariant c7Base (by decide) (by decide)
      [(1, 2, DependencyType.finish_to_start, 0), (2, 1, DependencyType.finish_to_start, 0)]
  exact ⟨h.1, by decide⟩

/-! ## StateManager frame lemmas -/

/-- `_initializeCache` touches only the caches and `virtualScroll`. -/
@[simp] theorem initializeCache_state_tasks (m : StateManager) :
    (StateManager.initializeCache m).state.tasks = m.state.tasks := rfl

/-- See `initializeCache_state_tasks`. -/
@[simp] theorem initializeCache_state_dependencies (m : StateManager) :
    (StateManager.initializeCache m).state.dependencies = m.state.dependencies := rfl

/-- See `initializeCache_state_tasks`. -/
@[simp] theorem initializeCache_history (m : StateManager) :
    (StateManager.initializeCache m).history = m.history := rfl

/-- See `initializeCache_state_tasks`. -/
@[simp] theorem initializeCache_future (m : StateManager) :
    (StateManager.initializeCache m).future = m.future := rfl

/-- See `initializeCache_state_tasks`. -/
@[simp] theorem initializeCache_batchUpdate (m : StateManager) :
    (StateManager.initializeCache m).batchUpdate = m.batchUpdate := rfl

/-- See `initializeCache_state_tasks`. -/
@[simp] theorem initializeCache_pendingActions (m : StateManager) :
    (StateManager.initializeCache m).pendingActions = m.pendingActions := rfl

/-- See `initializeCache_state_tasks`. -/
@[simp] theorem initializeCache_maxHistorySize (m : StateManager) :
    (StateManager.initializeCache m).maxHistorySize = m.maxHistorySize := rfl

/-- `_notifySubscribers` only bumps the notification count. -/
@[simp] theorem notifySubscribers_state (m : StateManager) :
    (StateManager.notifySubscribers m).state = m.state := rfl

/-- See `notifySubscribers_state`. -/
@[simp] theorem notifySubscribers_history (m : StateManager) :
    (StateManager.notifySubscribers m).history = m.history := rfl

/-- See `notifySubscribers_state`. -/
@[simp] theorem notifySubscribers_future (m : StateManager) :
    (StateManager.notifySubscribers m).future = m.future := rfl

/-- See `notifySubscribers_state`. -/
@[simp] theorem notifySubscribers_batchUpdate (m : StateManager) :
    (StateManager.notifySubscribers m).batchUpdate = m.batchUpdate := rfl

/-- See `notifySubscribers_state`. -/
@[simp] theorem notifySubscribers_pendingActions (m : StateManager) :
    (StateManager.notifySubscribers m).pendingActions = m.pendingActions := rfl

/-- See `notifySubscribers_state`. -/
@[simp] theorem notifySubscribers_maxHistorySize (m : StateManager) :
    (StateManager.notifySubscribers m).maxHistorySize = m.maxHistorySize := rfl

/-- In batch mode, a sequence of `dispatch` calls only extends the pending
queue: state, history, future, caches and the notification count are all
exactly as before. -/
theorem dispatch_batched_queues (m : StateManager) (acts : List GanttAction)
    (hb : m.batchUpdate = true) :
    acts.foldl StateManager.dispatch m =
      { m with pendingActions := m.pendingActions ++ acts } := by
  induction acts generalizing m with
  | nil => simp
  | cons a rest ih =>
    rw [List.foldl_cons]
    have h1 : StateManager.dispatch m a =
        { m with pendingActions := m.pendingActions ++ [a] } := by
      unfold StateManager.dispatch
      rw [if_pos hb]
    have h2 := ih { m with pendingActions := m.pendingActions ++ [a] } hb
    rw [h1, h2]
    simp

/-! ## Claim C8 (corrected): batch-mode transactionality -/

/-- C8 amended: with at least one queued action and the history ring below
capacity, every dispatch between `beginBatchUpdate()` and
`commitBatchUpdate()` is queued and leaves the state, history, redo stack,
caches and subscribers untouched; `commitBatchUpdate()` then applies all
queued actions to the state, pushes exactly one history entry for the whole
batch (`undoStackSize` + 1, not + number of queued actions), and returns
the manager to idle (`batchUpdate = false`, queue empty).  (At capacity the
oldest entry is evicted and `undoStackSize` stays put — the
counterexample.) -/
theorem batch_commit_single_history_entry (m : StateManager) (acts : List GanttAction)
    (hne : acts ≠ []) (hcap : m.history.length < m.maxHistorySize) :
    (dispatchList (StateManager.beginBatchUpdate m) acts).state = m.state ∧
    (dispatchList (StateManager.beginBatchUpdate m) acts).history = m.history ∧
    (dispatchList (StateManager.beginBatchUpdate m) acts).future = m.future ∧
    (dispatchList (StateManager.beginBatchUpdate m) acts).taskCache = m.taskCache ∧
    (dispatchList (StateManager.beginBatchUpdate m) acts).notifyCount = m.notifyCount ∧
    (dispatchList (StateManager.beginBatchUpdate m) acts).pendingActions = acts ∧
    (StateManager.commitBatchUpdate (dispatchList (StateManager.beginBatchUpdate m) acts)).state.tasks
      = (acts.foldl StateManager.handleAction m.state).tasks ∧
    (StateManager.commitBatchUpdate (dispatchList (StateManager.beginBatchUpdate m) acts)).state.dependencies
      = (acts.foldl StateManager.handleAction m.state).dependencies ∧
    (StateManager.commitBatchUpdate (dispatchList (StateManager.beginBatchUpdate m) acts)).history
      = m.history ++ [m.state] ∧
    StateManager.undoStackSize
      (StateManager.commitBatchUpdate (dispatchList (StateManager.beginBatchUpdate m) acts))
      = StateManager.undoStackSize m + 1 ∧
    (StateManager.commitBatchUpdate (dispatchList (StateManager.beginBatchUpdate m) acts)).batchUpdate
      = false ∧
    (StateManager.commitBatchUpdate (dispatchList (StateManager.beginBatchUpdate m) acts)).pendingActions
      = [] := by
  have hq : dispatchList (StateManager.beginBatchUpdate m) acts =
      { m with batchUpdate := true, pendingActions := acts } := by
    unfold dispatchList
    rw [dispatch_batched_queues _ acts rfl]
    rfl
  rw [hq]
  have hlen : ¬ (acts.length == 0) = true := by
    simp [List.length_eq_zero, hne]
  have hcommit : StateManager.commitBatchUpdate
      { m with batchUpdate := true, pendingActions := acts } =
      StateManager.notifySubscribers (StateManager.initializeCache
        { m with state := acts.foldl StateManager.handleAction m.state,
                 history := m.history ++ [m.state], future := [],
                 batchUpdate := false, pendingActions := [] }) := by
    unfold StateManager.commitBatchUpdate
    rw [if_neg (by simp [hlen])]
    unfold StateManager.saveToHistory
    dsimp only
    have hno : ¬ m.maxHistorySize < (m.history ++ [m.state]).length := by
      simp only [List.length_append, List.length_cons, List.length_nil]
      omega
    rw [if_neg hno]
  rw [hcommit]
  refine ⟨rfl, rfl, rfl, rfl, rfl, rfl, ?_, ?_, ?_, ?_, ?_, ?_⟩ <;>
    simp [StateManager.undoStackSize]

/-- Witness for the amended C8 on a fresh manager and a one-action batch. -/
theorem batch_commit_single_history_entry_witness :
    StateManager.undoStackSize
      (StateManager.commitBatchUpdate
        (dispatchList (StateManager.beginBatchUpdate freshSM) [GanttAction.selectTask 1]))
      = StateManager.undoStackSize freshSM + 1 ∧
    (StateManager.commitBatchUpdate
        (dispatchList (StateManager.beginBatchUpdate freshSM) [GanttAction.selectTask 1])).batchUpdate
      = false := by
  have h := batch_commit_single_history_entry freshSM [GanttAction.selectTask 1]
    (by decide) (by decide)
  exact ⟨h.2.2.2.2.2.2.2.2.2.1, h.2.2.2.2.2.2.2.2.2.2.1⟩

/-! ## Claim C3 (corrected): undo/redo round trip -/

/-- Peeling the last `undo` instead of the first. -/
theorem undoIter_succ' (n : Nat) : ∀ m : StateManager,
    undoIter m (n + 1) = (StateManager.undo (undoIter m n)).2 := by
  induction n with
  | zero => intro m; rfl
  | succ k ih =>
    intro m
    show undoIter (StateManager.undo m).2 (k + 1) = _
    rw [ih (StateManager.undo m).2]
    rfl

/-- Peeling the last `redo` instead of the first. -/
theorem redoIter_succ' (n : Nat) : ∀ m : StateManager,
    redoIter m (n + 1) = (StateManager.redo (redoIter m n)).2 := by
  induction n with
  | zero => intro m; rfl
  | succ k ih =>
    intro m
    show redoIter (StateManager.redo m).2 (k + 1) = _
    rw [ih (StateManager.redo m).2]
    rfl

/-- An idle, below-capacity `dispatch` in closed form: checkpoint appended,
redo stack cleared, action applied, caches rebuilt, one notification. -/
theorem dispatch_idle_eq (m : StateManager) (a : GanttAction)
    (hb : m.batchUpdate = false) (hcap : m.history.length < m.maxHistorySize) :
    StateManager.dispatch m a = StateManager.notifySubscribers (StateManager.initializeCache
      { m with state := StateManager.handleAction m.state a,
               history := m.history ++ [m.state], future := [] }) := by
  unfold StateManager.dispatch
  rw [if_neg (by simp [hb])]
  unfold StateManager.saveToHistory
  dsimp only
  have hno : ¬ m.maxHistorySize < (m.history ++ [m.state]).length := by
    simp only [List.length_append, List.length_cons, List.length_nil]
    omega
  rw [if_neg hno]

/-- `undo()` on a non-empty history in closed form. -/
theorem undo_pop (m : StateManager) (hne : m.history.length ≠ 0) :
    (StateManager.undo m).2 = StateManager.notifySubscribers (StateManager.initializeCache
      { m with future := m.future ++ [m.state],
               state := m.history.getLastD m.state,
               history := m.history.dropLast }) := by
  unfold StateManager.undo
  rw [if_neg (by simpa using hne)]

/-- `redo()` on a non-empty redo stack in closed form. -/
theorem redo_pop (m : StateManager) (hne : m.future.length ≠ 0) :
    (StateManager.redo m).2 = StateManager.notifySubscribers (StateManager.initializeCache
      { m with history := m.history ++ [m.state],
               state := m.future.getLastD m.state,
               future := m.future.dropLast }) := by
  unfold StateManager.redo
  rw [if_neg (by simpa using hne)]

/-- After N idle dispatches that all fit the history ring, N `undo()` calls
restore the pre-mutation tasks and dependencies (and the exact history). -/
theorem dispatchList_undo_restore (acts : List GanttAction) : ∀ (m : StateManager),
    m.batchUpdate = false → m.history.length + acts.length ≤ m.maxHistorySize →
    (undoIter (dispatchList m acts) acts.length).history = m.history ∧
    (undoIter (dispatchList m acts) acts.length).state.tasks = m.state.tasks ∧
    (undoIter (dispatchList m acts) acts.length).state.dependencies = m.state.dependencies ∧
    (undoIter (dispatchList m acts) acts.length).batchUpdate = false ∧
    (undoIter (dispatchList m acts) acts.length).maxHistorySize = m.maxHistorySize := by
  induction acts with
  | nil => intro m hb _; exact ⟨rfl, rfl, rfl, hb, rfl⟩
  | cons a rest ih =>
    intro m hb hcap
    have hcap1 : m.history.length < m.maxHistorySize := by
      simp only [List.length_cons] at hcap; omega
    have hda := dispatch_idle_eq m a hb hcap1
    have hlist : dispatchList m (a :: rest) = dispatchList (StateManager.dispatch m a) rest := by
      unfold dispatchList; rw [List.foldl_cons]
    have hdb : (StateManager.dispatch m a).batchUpdate = false := by rw [hda]; simp [hb]
    have hdh : (StateManager.dispatch m a).history = m.history ++ [m.state] := by
      rw [hda]; simp
    have hdm : (StateManager.dispatch m a).maxHistorySize = m.maxHistorySize := by
      rw [hda]; simp
    have hcap2 : (StateManager.dispatch m a).history.length + rest.length ≤
        (StateManager.dispatch m a).maxHistorySize := by
      rw [hdh, hdm]
      simp only [List.length_append, List.length_cons, List.length_nil, List.length_cons] at hcap ⊢
      omega
    have hZ := ih (StateManager.dispatch m a) hdb hcap2
    rw [hlist]
    simp only [List.length_cons]
    rw [undoIter_succ']
    set Z := undoIter (dispatchList (StateManager.dispatch m a) rest) rest.length with hZdef
    have hZh : Z.history = m.history ++ [m.state] := by rw [hZ.1, hdh]
    have hZne : Z.history.length ≠ 0 := by rw [hZh]; simp
    rw [undo_pop Z hZne]
    refine ⟨?_, ?_, ?_, ?_, ?_⟩
    · simp [hZh, List.dropLast_concat]
    · simp [hZh, List.getLastD_concat]
    · simp [hZh, List.getLastD_concat]
    · simp [hZ.2.2.2.1]
    · simp [hZ.2.2.2.2, hdm]

/-- N undos followed by N redos land back at the tasks/dependencies of the
state they started from (and restore the redo stack exactly): each redo pops
precisely the snapshot the matching undo pushed. -/
theorem undo_redo_roundtrip (n : Nat) : ∀ (m : StateManager), n ≤ m.history.length →
    (redoIter (undoIter m n) n).future = m.future ∧
    (redoIter (undoIter m n) n).state.tasks = m.state.tasks ∧
    (redoIter (undoIter m n) n).state.dependencies = m.state.dependencies := by
  induction n with
  | zero => intro m _; exact ⟨rfl, rfl, rfl⟩
  | succ k ih =>
    intro m hn
    have hne : m.history.length ≠ 0 := by omega
    have hu1 : undoIter m (k + 1) = undoIter (StateManager.undo m).2 k := rfl
    have hufut : (StateManager.undo m).2.future = m.future ++ [m.state] := by
      rw [undo_pop m hne]; simp
    have huh : (StateManager.undo m).2.history = m.history.dropLast := by
      rw [undo_pop m hne]; simp
    have hk : k ≤ (StateManager.undo m).2.history.length := by
      rw [huh, List.length_dropLast]; omega
    have hY := ih (StateManager.undo m).2 hk
    rw [hu1, redoIter_succ']
    set Y := redoIter (undoIter (StateManager.undo m).2 k) k with hYdef
    have hYfut : Y.future = m.future ++ [m.state] := by rw [hY.1, hufut]
    have hYne : Y.future.length ≠ 0 := by rw [hYfut]; simp
    rw [redo_pop Y hYne]
    refine ⟨?_, ?_, ?_⟩
    · simp [hYfut, List.dropLast_concat]
    · simp [hYfut, List.getLastD_concat]
    · simp [hYfut, List.getLastD_concat]

/-- Idle dispatches below capacity grow the history by one each and keep the
manager idle. -/
theorem dispatchList_history_facts (acts : List GanttAction) : ∀ (m : StateManager),
    m.batchUpdate = false → m.history.length + acts.length ≤ m.maxHistorySize →
    (dispatchList m acts).history.length = m.history.length + acts.length ∧
    (dispatchList m acts).batchUpdate = false := by
  induction acts with
  | nil => intro m hb _; exact ⟨rfl, hb⟩
  | cons a rest ih =>
    intro m hb hcap
    have hcap1 : m.history.length < m.maxHistorySize := by
      simp only [List.length_cons] at hcap; omega
    have hda := dispatch_idle_eq m a hb hcap1
    have hdb : (StateManager.dispatch m a).batchUpdate = false := by rw [hda]; simp [hb]
    have hdh : (StateManager.dispatch m a).history = m.history ++ [m.state] := by
      rw [hda]; simp
    have hdm : (StateManager.dispatch m a).maxHistorySize = m.maxHistorySize := by
      rw [hda]; simp
    have hcap2 : (StateManager.dispatch m a).history.length + rest.length ≤
        (StateManager.dispatch m a).maxHistorySize := by
      rw [hdh, hdm]
      simp only [List.length_append, List.length_cons, List.length_nil] at hcap ⊢
      omega
    have hrest := ih (StateManager.dispatch m a) hdb hcap2
    have hlist : dispatchList m (a :: rest) = dispatchList (StateManager.dispatch m a) rest := by
      unfold dispatchList; rw [List.foldl_cons]
    rw [hlist]
    refine ⟨?_, hrest.2⟩
    rw [hrest.1, hdh]
    simp only [List.length_append, List.length_cons, List.length_nil]
    omega

/-- C3 amended: for any sequence of N dispatched mutations on an idle
manager whose history ring has room for all N checkpoints, `undo()` N times
restores the tasks and dependencies observed before the first mutation, and
the subsequent `redo()` N times restores the tasks and dependencies of the
state after the Nth mutation — not the pre-mutation state the original claim
asserts the full undoᴺ;redoᴺ sequence ends in. -/
theorem dispatch_undoN_redoN (m : StateManager) (acts : List GanttAction)
    (hb : m.batchUpdate = false)
    (hcap : m.history.length + acts.length ≤ m.maxHistorySize) :
    (undoIter (dispatchList m acts) acts.length).state.tasks = m.state.tasks ∧
    (undoIter (dispatchList m acts) acts.length).state.dependencies = m.state.dependencies ∧
    (redoIter (undoIter (dispatchList m acts) acts.length) acts.length).state.tasks
      = (dispatchList m acts).state.tasks ∧
    (redoIter (undoIter (dispatchList m acts) acts.length) acts.length).state.dependencies
      = (dispatchList m acts).state.dependencies := by
  have h1 := dispatchList_undo_restore acts m hb hcap
  have hlen := dispatchList_history_facts acts m hb hcap
  have h2 := undo_redo_roundtrip acts.length (dispatchList m acts) (by rw [hlen.1]; omega)
  exact ⟨h1.2.1, h1.2.2.1, h2.2.1, h2.2.2⟩

/-- Witness for the amended C3: one `ADD_TASK` mutation on a fresh manager. -/
theorem dispatch_undoN_redoN_witness :
    (undoIter (dispatchList freshSM [GanttAction.addTask baseTask]) 1).state.tasks
      = freshSM.state.tasks ∧
    (redoIter (undoIter (dispatchList freshSM [GanttAction.addTask baseTask]) 1) 1).state.tasks
      = (dispatchList freshSM [GanttAction.addTask baseTask]).state.tasks := by
  have h := dispatch_undoN_redoN freshSM [GanttAction.addTask baseTask] (by decide) (by decide)
  exact ⟨h.1, h.2.2.1⟩

/-! ## Claim C5 (corrected): project progress double-counts direct children -/

/-- `reduce((sum, t) => sum + t.progress, init)` in terms of `sumProgress`. -/
theorem sumProgress_general (l : List Task) : ∀ (init : Int),
    l.foldl (fun sum t => sum + t.progress) init = init + sumProgress l := by
  induction l with
  | nil => intro init; simp [sumProgress]
  | cons t rest ih =>
    intro init
    show rest.foldl _ (init + t.progress) = _
    rw [ih (init + t.progress)]
    have h2 : sumProgress (t :: rest) = t.progress + sumProgress rest := by
      show rest.foldl _ (0 + t.progress) = _
      rw [ih (0 + t.progress)]
      omega
    rw [h2]
    omega

/-- `sumProgress` over a cons. -/
theorem sumProgress_cons (t : Task) (l : List Task) :
    sumProgress (t :: l) = t.progress + sumProgress l := by
  show l.foldl _ (0 + t.progress) = _
  rw [sumProgress_general l (0 + t.progress)]
  omega

/-- `sumProgress` over an append. -/
theorem sumProgress_append (l1 l2 : List Task) :
    sumProgress (l1 ++ l2) = sumProgress l1 + sumProgress l2 := by
  induction l1 with
  | nil => simp [sumProgress]
  | cons t rest ih =>
    rw [List.cons_append, sumProgress_cons, sumProgress_cons, ih]
    omega

/-- Summing over the descendant walk `flatMap (c :: desc c)` splits into the
children's own progress plus the deeper walks. -/
theorem sumProgress_interleaved (desc : Task → List Task) (cs : List Task) :
    sumProgress (cs.flatMap (fun c => c :: desc c)) =
      sumProgress cs + sumProgress (cs.flatMap desc) := by
  induction cs with
  | nil => simp [sumProgress]
  | cons c rest ih =>
    rw [List.flatMap_cons, List.flatMap_cons, sumProgress_cons, sumProgress_append,
      sumProgress_append, sumProgress_cons, ih]
    omega

/-- Counting over the descendant walk splits the same way. -/
theorem length_interleaved (desc : Task → List Task) (cs : List Task) :
    (cs.flatMap (fun c => c :: desc c)).length =
      cs.length + (cs.flatMap desc).length := by
  induction cs with
  | nil => simp
  | cons c rest ih =>
    rw [List.flatMap_cons, List.flatMap_cons]
    simp only [List.length_append, List.length_cons, ih]
    omega

/-- C5 amended: when no task carries the id with type `project`,
`calculateProjectProgress` returns 0; when the project is found (and is also
the first task with that id), the result is 0 for an empty `children` cache
and otherwise the rounded mean in which every direct child's progress counts
twice (once from the `children` cache, once from the descendant walk) and
every strictly-deeper descendant's progress counts once — not the
every-contributor-once mean the original claim states. -/
theorem calculateProjectProgress_amended (tm : TaskManager) (pid : TaskId) :
    (tm.tasks.find? (fun t => t.id == pid && t.type == TaskType.project) = none →
      tm.calculateProjectProgress pid = 0) ∧
    (∀ project,
      tm.tasks.find? (fun t => t.id == pid && t.type == TaskType.project) = some project →
      tm.tasks.find? (fun t => t.id == pid) = some project →
      ((TaskManager.resolveChildren tm.tasks project = [] →
          tm.calculateProjectProgress pid = 0) ∧
       (TaskManager.resolveChildren tm.tasks project ≠ [] →
          tm.calculateProjectProgress pid =
            jsRoundDiv
              (2 * sumProgress (TaskManager.resolveChildren tm.tasks project) +
                sumProgress ((TaskManager.resolveChildren tm.tasks project).flatMap
                  (fun c => TaskManager.collectDescendants tm.tasks tm.tasks.length c)))
              (2 * (TaskManager.resolveChildren tm.tasks project).length +
                ((TaskManager.resolveChildren tm.tasks project).flatMap
                  (fun c => TaskManager.collectDescendants tm.tasks tm.tasks.length c)).length)))) := by
  constructor
  · intro hnone
    unfold TaskManager.calculateProjectProgress
    rw [hnone]
  · intro project hfind hsame
    have hdesc : tm.getDescendantTasks pid =
        (TaskManager.resolveChildren tm.tasks project).flatMap
          (fun c => c :: TaskManager.collectDescendants tm.tasks tm.tasks.length c) := by
      unfold TaskManager.getDescendantTasks
      rw [hsame]
      rfl
    constructor
    · intro hempty
      unfold TaskManager.calculateProjectProgress
      rw [hfind]
      dsimp only
      rw [hdesc, hempty]
      rfl
    · intro hne
      unfold TaskManager.calculateProjectProgress
      rw [hfind]
      dsimp only
      rw [hdesc]
      set direct := TaskManager.resolveChildren tm.tasks project with hdirect
      set desc := fun c => TaskManager.collectDescendants tm.tasks tm.tasks.length c with hdescf
      have hlen0 : (direct ++ direct.flatMap (fun c => c :: desc c)).length ≠ 0 := by
        rcases direct with _ | ⟨c, cs⟩
        · exact absurd rfl hne
        · simp
      rw [if_neg (by simpa using hlen0)]
      rw [sumProgress_general _ 0]
      rw [sumProgress_append, sumProgress_interleaved]
      simp only [List.length_append, length_interleaved]
      have harith1 : (0 : Int) + (sumProgress direct + (sumProgress direct +
          sumProgress (direct.flatMap desc))) =
          2 * sumProgress direct + sumProgress (direct.flatMap desc) := by omega
      have harith2 : direct.length + (direct.length + (direct.flatMap desc).length) =
          2 * direct.length + (direct.flatMap desc).length := by omega
      rw [harith1, harith2]

/-- Witness for the amended C5 at the concrete project/child/grandchild
manager: the double-counting formula yields 67. -/
theorem calculateProjectProgress_amended_witness :
    TaskManager.calculateProjectProgress c5Manager 1 = 67 := by
  have h := (calculateProjectProgress_amended c5Manager 1).2
    ({ baseTask with id := 1, name := "任务 1", type := TaskType.project, color := "#fa8c16", children := [2] })
    (by decide) (by decide)
  rw [h.2 (by decide)]
  decide
/-! ## Claim C9 (corrected): id uniqueness and smallest-unused generation -/

/-- `tasks.some(t => t.id === j)` is membership of `j` in the id sequence. -/
theorem any_id_iff_mem (tasks : List Task) (j : TaskId) :
    (tasks.any (fun t => t.id == j) = true) ↔ j ∈ tasks.map (·.id) := by
  simp [List.any_eq_true, List.mem_map]

/-- The `_generateId` while loop never goes below its starting value. -/
theorem generateIdAux_ge (tasks : List Task) : ∀ (fuel n : Nat),
    n ≤ generateIdAux tasks fuel n := by
  intro fuel
  induction fuel with
  | zero => intro n; exact Nat.le_refl n
  | succ f ih =>
    intro n
    unfold generateIdAux
    by_cases h : tasks.any (fun t => t.id == n) <;> simp [h]
    exact Nat.le_trans (Nat.le_succ n) (ih (n + 1))

/-- With enough fuel to reach a free id, the `_generateId` loop returns a
free id and every id it skipped was occupied. -/
theorem generateIdAux_spec (tasks : List Task) : ∀ (fuel n : Nat),
    (∃ k, k < fuel ∧ tasks.any (fun t => t.id == n + k) = false) →
    tasks.any (fun t => t.id == generateIdAux tasks fuel n) = false ∧
    ∀ j, n ≤ j → j < generateIdAux tasks fuel n →
      tasks.any (fun t => t.id == j) = true := by
  intro fuel
  induction fuel with
  | zero =>
    rintro n ⟨k, hk, _⟩
    exact absurd hk (Nat.not_lt_zero k)
  | succ f ih =>
    rintro n ⟨k, hk, hfree⟩
    unfold generateIdAux
    by_cases hocc : tasks.any (fun t => t.id == n) = true
    · simp only [hocc, if_true]
      have hk0 : k ≠ 0 := by
        intro h0
        rw [h0, Nat.add_zero] at hfree
        rw [hocc] at hfree
        exact Bool.noConfusion hfree
      have hrec := ih (n + 1) ⟨k - 1, by omega, by
        have : n + 1 + (k - 1) = n + k := by omega
        rw [this]; exact hfree⟩
      refine ⟨hrec.1, ?_⟩
      intro j hj1 hj2
      by_cases hjn : j = n
      · rw [hjn]; exact hocc
      · exact hrec.2 j (by omega) hj2
    · simp only [hocc]
      simp only [Bool.false_eq_true, if_false]
      refine ⟨by simpa using hocc, ?_⟩
      intro j hj1 hj2
      omega

/-- Pigeonhole: among `tasks.length + 1` consecutive candidate ids at least
one is unoccupied, so the default fuel always reaches a free id. -/
theorem generateId_free_slot (tasks : List Task) (n : Nat) :
    ∃ k, k < tasks.length + 1 ∧ tasks.any (fun t => t.id == n + k) = false := by
  by_contra hall
  push_neg at hall
  have hall' : ∀ k, k < tasks.length + 1 → n + k ∈ tasks.map (·.id) := by
    intro k hk
    have h1 := hall k hk
    rw [← any_id_iff_mem]
    cases hb : tasks.any (fun t => t.id == n + k) with
    | false => exact absurd hb h1
    | true => rfl
  have hsub : ((List.range (tasks.length + 1)).map (fun k => n + k)) ⊆ tasks.map (·.id) := by
    intro x hx
    rcases List.mem_map.mp hx with ⟨k, hk, rfl⟩
    exact hall' k (List.mem_range.mp hk)
  have hnd : ((List.range (tasks.length + 1)).map (fun k => n + k)).Nodup :=
    List.Nodup.map (fun a b h => by omega) (List.nodup_range _)
  have hsp := List.subperm_of_subset hnd hsub
  have hlen := hsp.length_le
  simp at hlen



/-- The parent `children`-cache recompute preserves the id sequence. -/
theorem updateParentTaskChildren_map_id (tasks : List Task) (pid : TaskId) :
    (TaskManager.updateParentTaskChildren tasks pid).map (·.id) = tasks.map (·.id) := by
  unfold TaskManager.updateParentTaskChildren
  split
  · exact updateFirst_map_id _ _ _ (fun t => rfl)
  · rfl

/-- `createTask` appends exactly one task (with the returned id) to the id
sequence. -/
theorem createTask_tasks_map_id (tm : TaskManager) (today : Int) (p : PartialTask) :
    ((tm.createTask today p).2.tasks).map (·.id) =
      tm.tasks.map (·.id) ++ [(tm.createTask today p).1.id] := by
  unfold TaskManager.createTask
  dsimp only
  split
  · rw [updateParentTaskChildren_map_id]
    simp
  · simp

/-- The id `createTask` assigns: the truthy supplied one, else generated. -/
theorem createTask_id_eq (tm : TaskManager) (today : Int) (p : PartialTask) :
    (tm.createTask today p).1.id =
      (if optTruthy p.id then p.id.getD 0 else tm.generateId) := rfl

/-- `createTask` ratchets `nextId` only when it generates. -/
theorem createTask_nextId_eq (tm : TaskManager) (today : Int) (p : PartialTask) :
    (tm.createTask today p).2.nextId =
      (if optTruthy p.id then tm.nextId else tm.generateId) := rfl

/-- One `createTask` call preserves the id-uniqueness invariant provided a
truthy explicit id is fresh; when the id is generated, it is the smallest
unused positive integer. -/
theorem createTask_step (tm : TaskManager) (today : Int) (p : PartialTask)
    (hinv : TMInv tm)
    (hfresh : optTruthy p.id = true → ¬ (p.id.getD 0 ∈ tm.tasks.map (·.id))) :
    TMInv (tm.createTask today p).2 ∧
    (optTruthy p.id = false →
      (0 < (tm.createTask today p).1.id ∧
       (tm.createTask today p).1.id ∉ tm.tasks.map (·.id) ∧
       ∀ j, 0 < j → j < (tm.createTask today p).1.id → j ∈ tm.tasks.map (·.id))) := by
  obtain ⟨hnodup, hlow, hone⟩ := hinv
  have hmap := createTask_tasks_map_id tm today p
  by_cases hex : optTruthy p.id = true
  · have hid : (tm.createTask today p).1.id = p.id.getD 0 := by
      rw [createTask_id_eq, if_pos hex]
    have hnext : (tm.createTask today p).2.nextId = tm.nextId := by
      rw [createTask_nextId_eq, if_pos hex]
    refine ⟨⟨?_, ?_, ?_⟩, ?_⟩
    · rw [hmap, hid]
      simp only [List.nodup_append, List.nodup_cons, List.nodup_nil]
      exact ⟨hnodup, ⟨by simp, trivial⟩, by simpa using hfresh hex⟩
    · intro k hk1 hk2
      rw [hnext] at hk2
      rw [hmap]
      exact List.mem_append_left _ (hlow k hk1 hk2)
    · rw [hnext]; exact hone
    · intro hcon; rw [hcon] at hex; exact Bool.noConfusion hex
  · have hexF : optTruthy p.id = false := by
      cases hb : optTruthy p.id with
      | false => rfl
      | true => exact absurd hb hex
    have hid : (tm.createTask today p).1.id = tm.generateId := by
      rw [createTask_id_eq, if_neg hex]
    have hnext : (tm.createTask today p).2.nextId = tm.generateId := by
      rw [createTask_nextId_eq, if_neg hex]
    have hslot := generateId_free_slot tm.tasks tm.nextId
    have hspec := generateIdAux_spec tm.tasks (tm.tasks.length + 1) tm.nextId hslot
    have hge : tm.nextId ≤ tm.generateId := generateIdAux_ge tm.tasks _ _
    have hspec1 : (tm.tasks.any fun t => t.id == tm.generateId) = false := hspec.1
    have hnotmem : tm.generateId ∉ tm.tasks.map (·.id) := by
      intro hmem
      rw [← any_id_iff_mem] at hmem
      rw [hspec1] at hmem
      exact Bool.noConfusion hmem
    have hspec2 : ∀ j, tm.nextId ≤ j → j < tm.generateId →
        (tm.tasks.any fun t => t.id == j) = true := hspec.2
    have hbelow : ∀ j, 0 < j → j < tm.generateId → j ∈ tm.tasks.map (·.id) := by
      intro j hj1 hj2
      by_cases hjn : j < tm.nextId
      · exact hlow j hj1 hjn
      · rw [← any_id_iff_mem]
        exact hspec2 j (by omega) hj2
    refine ⟨⟨?_, ?_, ?_⟩, ?_⟩
    · rw [hmap, hid]
      simp only [List.nodup_append, List.nodup_cons, List.nodup_nil]
      exact ⟨hnodup, ⟨by simp, trivial⟩, by simpa using hnotmem⟩
    · intro k hk1 hk2
      rw [hnext] at hk2
      rw [hmap]
      exact List.mem_append_left _ (hbelow k hk1 hk2)
    · rw [hnext]; exact le_trans hone hge
    · intro _
      rw [hid]
      exact ⟨lt_of_lt_of_le Nat.zero_lt_one (le_trans hone hge), hnotmem, hbelow⟩

/-- The invariant is preserved along any call sequence whose explicit ids
are fresh at their point of use. -/
theorem applyCreates_inv (calls : List CreateCall) : ∀ (tm : TaskManager),
    TMInv tm → explicitFreshB tm calls = true → TMInv (applyCreates tm calls) := by
  induction calls with
  | nil => intro tm hinv _; exact hinv
  | cons c rest ih =>
    intro tm hinv hfresh
    unfold explicitFreshB at hfresh
    rw [Bool.and_eq_true] at hfresh
    have hfr : optTruthy c.2.id = true → ¬ (c.2.id.getD 0 ∈ tm.tasks.map (·.id)) := by
      intro hext hmem
      have h1 := hfresh.1
      rw [hext] at h1
      simp only [Bool.not_true, Bool.false_or] at h1
      rw [Bool.not_eq_true'] at h1
      exact absurd hmem (by simpa using h1)
    have hstep := createTask_step tm c.1 c.2 hinv hfr
    have hlist : applyCreates tm (c :: rest) =
        applyCreates (tm.createTask c.1 c.2).2 rest := by
      unfold applyCreates; rw [List.foldl_cons]
    rw [hlist]
    exact ih _ hstep.1 hfresh.2

/-- C9 amended: after every sequence of `createTask` calls in which each
explicitly supplied (truthy) id is unused at its point of use, all task ids
are pairwise distinct, and the id generated for a call that omits one is the
smallest unused positive integer (positive, not in use, and everything
positive below it in use).  Duplicate explicit ids are accepted unchecked —
the counterexample. -/
theorem createTask_id_uniqueness (tm : TaskManager) (hinv : TMInv tm)
    (calls : List CreateCall) (hfresh : explicitFreshB tm calls = true) :
    ((applyCreates tm calls).tasks.map (·.id)).Nodup ∧
    ∀ (today : Int) (p : PartialTask), optTruthy p.id = false →
      (0 < ((applyCreates tm calls).createTask today p).1.id ∧
       ((applyCreates tm calls).createTask today p).1.id
         ∉ (applyCreates tm calls).tasks.map (·.id) ∧
       ∀ j, 0 < j → j < ((applyCreates tm calls).createTask today p).1.id →
         j ∈ (applyCreates tm calls).tasks.map (·.id)) := by
  have hinvF := applyCreates_inv calls tm hinv hfresh
  refine ⟨hinvF.1, ?_⟩
  intro today p hgen
  have hstep := createTask_step (applyCreates tm calls) today p hinvF
    (fun hext => absurd (hgen ▸ hext) (by simp [hgen]))
  exact hstep.2 hgen

/-- Witness for the amended C9: explicit id 5 then two generated ids (1, 2)
on a fresh manager. -/
theorem createTask_id_uniqueness_witness :
    ((applyCreates ({} : TaskManager)
        [(0, { id := some 5 }), (0, {}), (0, {})]).tasks.map (·.id)).Nodup ∧
    0 < ((applyCreates ({} : TaskManager)
        [(0, { id := some 5 }), (0, {}), (0, {})]).createTask 0 {}).1.id := by
  have h := createTask_id_uniqueness ({} : TaskManager)
    (by refine ⟨by simp, ?_, by simp⟩; intro k h1 h2; simp at h2; omega)
    [(0, { id := some 5 }), (0, {}), (0, {})] (by decide)
  exact ⟨h.1, (h.2 0 {} rfl).1⟩

/-! ## Claim C6 (confirmed): cascade delete -/

/-- A counted chain is a chain. -/
theorem reachesN_reaches {tasks : List Task} {n : Nat} {a b : TaskId}
    (h : ReachesN tasks n a b) : Reaches tasks a b := by
  induction h with
  | refl a => exact Reaches.refl a
  | step e _ ih => exact Reaches.step e ih

/-- Every chain has a length. -/
theorem reaches_reachesN {tasks : List Task} {a b : TaskId}
    (h : Reaches tasks a b) : ∃ n, ReachesN tasks n a b := by
  induction h with
  | refl a => exact ⟨0, ReachesN.refl a⟩
  | step e _ ih =>
    obtain ⟨n, hn⟩ := ih
    exact ⟨n + 1, ReachesN.step e hn⟩

/-- Along a `parentId` chain, a depth function that increases by one per
edge determines the chain length. -/
theorem reachesN_depth {tasks : List Task} (depth : TaskId → Nat)
    (hdepth : ∀ t ∈ tasks, ∀ p, t.parentId = some p → depth t.id = depth p + 1)
    {n : Nat} {a b : TaskId} (h : ReachesN tasks n a b) : depth b = depth a + n := by
  induction h with
  | refl a => rfl
  | step e hrest ih =>
    rename_i m x y z
    obtain ⟨t, ht, hid, hpar⟩ := e
    have hy : depth y = depth x + 1 := by
      rw [← hid]
      exact hdepth t ht x hpar
    rw [ih, hy]
    omega

/-- A non-trivial chain ends at the id of some task of the list. -/
theorem reachesN_target_mem {tasks : List Task} {n : Nat} {a b : TaskId}
    (h : ReachesN tasks n a b) (hn : n ≠ 0) : ∃ t ∈ tasks, t.id = b := by
  induction h with
  | refl a => exact absurd rfl hn
  | step e hrest ih =>
    rename_i m x y z
    cases hrest with
    | refl _ =>
      obtain ⟨t, ht, hid, _⟩ := e
      exact ⟨t, ht, hid⟩
    | step e2 h2 =>
      exact ih (by omega)

/-- With a depth function bounded by the task count, chains are no longer
than the task count (so the default deletion fuel always suffices). -/
theorem reachesN_bound {tasks : List Task} (depth : TaskId → Nat)
    (hdepth : ∀ t ∈ tasks, ∀ p, t.parentId = some p → depth t.id = depth p + 1)
    (hbound : ∀ t ∈ tasks, depth t.id ≤ tasks.length)
    {n : Nat} {a b : TaskId} (h : ReachesN tasks n a b) : n ≤ tasks.length := by
  by_cases hn : n = 0
  · omega
  · obtain ⟨t, ht, hid⟩ := reachesN_target_mem h hn
    have hd := reachesN_depth depth hdepth h
    have hb := hbound t ht
    rw [hid] at hb
    omega

/-- Everything `collectTasksToDelete` gathers is reachable from the root by
a `parentId` chain (no hypotheses needed). -/
theorem collect_sound (tasks : List Task) : ∀ (fuel : Nat) (a x : TaskId),
    x ∈ TaskManager.collectTasksToDelete tasks fuel a → Reaches tasks a x := by
  intro fuel
  induction fuel with
  | zero => intro a x hx; exact absurd hx (List.not_mem_nil x)
  | succ f ih =>
    intro a x hx
    unfold TaskManager.collectTasksToDelete at hx
    rcases List.mem_cons.mp hx with h | h
    · rw [h]; exact Reaches.refl a
    · rw [List.mem_flatMap] at h
      obtain ⟨c, hc, hcx⟩ := h
      rw [List.mem_map] at hc
      obtain ⟨t, ht, hcid⟩ := hc
      rw [List.mem_filter] at ht
      have hedge : parentEdge tasks a c := by
        refine ⟨t, ht.1, hcid, ?_⟩
        have := ht.2
        simpa using this
      exact Reaches.step hedge (ih c x hcx)

/-- Everything reachable within the fuel bound is gathered. -/
theorem collect_complete (tasks : List Task) {n : Nat} {a x : TaskId}
    (h : ReachesN tasks n a x) : ∀ fuel, n < fuel →
    x ∈ TaskManager.collectTasksToDelete tasks fuel a := by
  induction h with
  | refl a =>
    intro fuel hf
    match fuel, hf with
    | f + 1, _ =>
      unfold TaskManager.collectTasksToDelete
      exact List.mem_cons_self a _
  | step e hrest ih =>
    rename_i m p q r
    intro fuel hf
    match fuel, hf with
    | f + 1, hf =>
      unfold TaskManager.collectTasksToDelete
      refine List.mem_cons_of_mem p ?_
      rw [List.mem_flatMap]
      obtain ⟨t, ht, hid, hpar⟩ := e
      refine ⟨q, ?_, ih f (by omega)⟩
      rw [List.mem_map]
      refine ⟨t, ?_, hid⟩
      rw [List.mem_filter]
      exact ⟨ht, by simp [hpar]⟩

/-- Under a depth witness for the acyclicity of the `parentId` forest, the
collected deletion set is exactly the claim's reachable-by-`parentId`-chains
set. -/
theorem collect_iff_reaches (tm : TaskManager) (taskId : TaskId) (depth : TaskId → Nat)
    (hdepth : ∀ t ∈ tm.tasks, ∀ p, t.parentId = some p → depth t.id = depth p + 1)
    (hbound : ∀ t ∈ tm.tasks, depth t.id ≤ tm.tasks.length) (x : TaskId) :
    x ∈ TaskManager.collectTasksToDelete tm.tasks (tm.tasks.length + 1) taskId ↔
      Reaches tm.tasks taskId x := by
  constructor
  · exact collect_sound tm.tasks _ taskId x
  · intro hr
    obtain ⟨n, hn⟩ := reaches_reachesN hr
    exact collect_complete tm.tasks hn _
      (Nat.lt_succ_of_le (reachesN_bound depth hdepth hbound hn))



/-- Splitting a count along a second predicate. -/
theorem countP_bool_split (l : List Task) (p q : Task → Bool) :
    l.countP p = l.countP (fun x => p x && q x) + l.countP (fun x => p x && !q x) := by
  induction l with
  | nil => simp
  | cons t rest ih =>
    simp only [List.countP_cons, ih]
    cases hp : p t <;> cases hq : q t <;> simp [hp, hq] <;> omega

/-- A conjunct implied by the other is absorbed. -/
theorem countP_and_of_imp (l : List Task) (p q : Task → Bool)
    (himp : ∀ t ∈ l, q t = true → p t = true) :
    l.countP (fun x => p x && q x) = l.countP q := by
  induction l with
  | nil => simp
  | cons t rest ih =>
    simp only [List.countP_cons]
    rw [ih (fun t ht => himp t (List.mem_cons_of_mem _ ht))]
    cases hq : q t with
    | false => simp [hq]
    | true => simp [hq, himp t (List.mem_cons_self t rest) hq]

/-- With pairwise-distinct ids, exactly one task carries a present id. -/
theorem countP_id_eq_one (tasks : List Task) (hnodup : (tasks.map (·.id)).Nodup)
    (i : TaskId) (hex : ∃ t ∈ tasks, t.id = i) :
    tasks.countP (fun t => t.id == i) = 1 := by
  have hmem : i ∈ tasks.map (·.id) := by
    obtain ⟨t, ht, hid⟩ := hex
    exact List.mem_map.mpr ⟨t, ht, hid⟩
  have hcount := List.count_eq_one_of_mem hnodup hmem
  rw [List.count] at hcount
  rw [List.countP_map] at hcount
  exact hcount

/-- A predicate partitions the list's length. -/
theorem length_filter_partition (l : List Task) (p : Task → Bool) :
    l.length = l.countP p + l.countP (fun x => !(p x)) := by
  induction l with
  | nil => simp
  | cons t rest ih =>
    simp only [List.length_cons, List.countP_cons, ih]
    cases hp : p t <;> simp [hp] <;> omega



/-- C6: for a manager with pairwise-distinct task ids and an acyclic
`parentId` forest (witnessed by a depth function), `deleteTask(id)` on an
existing id returns `true`, removes exactly the task and every task
reachable from it via `parentId` chains, removes exactly the dependencies
with a removed endpoint, and shrinks `getTasks().length` by exactly
`1 + |descendants|`; on an unknown id it returns `false` and changes
nothing. -/
theorem deleteTask_cascade (tm : TaskManager) (taskId : TaskId) (depth : TaskId → Nat)
    (hnodup : (tm.tasks.map (·.id)).Nodup)
    (hdepth : ∀ t ∈ tm.tasks, ∀ p, t.parentId = some p → depth t.id = depth p + 1)
    (hbound : ∀ t ∈ tm.tasks, depth t.id ≤ tm.tasks.length)
    (hex : ∃ t ∈ tm.tasks, t.id = taskId) :
    (tm.deleteTask taskId).1 = true ∧
    (∀ x, x ∈ TaskManager.collectTasksToDelete tm.tasks (tm.tasks.length + 1) taskId ↔
       Reaches tm.tasks taskId x) ∧
    ((tm.deleteTask taskId).2.tasks.map (·.id) =
      (tm.tasks.filter (fun t =>
        ¬ (TaskManager.collectTasksToDelete tm.tasks (tm.tasks.length + 1) taskId).contains
          t.id)).map (·.id)) ∧
    ((tm.deleteTask taskId).2.dependencies =
      tm.dependencies.filter (fun d =>
        ¬ (TaskManager.collectTasksToDelete tm.tasks (tm.tasks.length + 1) taskId).contains
          d.fromId ∧
        ¬ (TaskManager.collectTasksToDelete tm.tasks (tm.tasks.length + 1) taskId).contains
          d.toId)) ∧
    (tm.tasks.length = (tm.deleteTask taskId).2.tasks.length + 1 +
      tm.tasks.countP (fun t =>
        (TaskManager.collectTasksToDelete tm.tasks (tm.tasks.length + 1) taskId).contains
          t.id && !(t.id == taskId))) ∧
    (∀ i, (∀ t ∈ tm.tasks, t.id ≠ i) → tm.deleteTask i = (false, tm)) := by
  obtain ⟨tw, htw, hidw⟩ := hex
  have hfind : ∃ t0, tm.tasks.find? (fun t => t.id == taskId) = some t0 := by
    have hsome : (tm.tasks.find? (fun t => t.id == taskId)).isSome := by
      rw [List.find?_isSome]
      exact ⟨tw, htw, by simp [hidw]⟩
    exact Option.isSome_iff_exists.mp hsome
  obtain ⟨t0, ht0⟩ := hfind
  have hdel : tm.deleteTask taskId =
      (true,
       { tm with
         tasks :=
           (if optTruthy t0.parentId ∧
               ¬ (TaskManager.collectTasksToDelete tm.tasks (tm.tasks.length + 1)
                 taskId).contains (t0.parentId.getD 0) then
             TaskManager.updateParentTaskChildren
               (tm.tasks.filter (fun t =>
                 ¬ (TaskManager.collectTasksToDelete tm.tasks (tm.tasks.length + 1)
                   taskId).contains t.id))
               (t0.parentId.getD 0)
           else
             tm.tasks.filter (fun t =>
               ¬ (TaskManager.collectTasksToDelete tm.tasks (tm.tasks.length + 1)
                 taskId).contains t.id)),
         dependencies :=
           tm.dependencies.filter (fun d =>
             ¬ (TaskManager.collectTasksToDelete tm.tasks (tm.tasks.length + 1)
               taskId).contains d.fromId ∧
             ¬ (TaskManager.collectTasksToDelete tm.tasks (tm.tasks.length + 1)
               taskId).contains d.toId) }) := by
    unfold TaskManager.deleteTask
    rw [ht0]
  have hmapid : (tm.deleteTask taskId).2.tasks.map (·.id) =
      (tm.tasks.filter (fun t =>
        ¬ (TaskManager.collectTasksToDelete tm.tasks (tm.tasks.length + 1) taskId).contains
          t.id)).map (·.id) := by
    rw [hdel]
    dsimp only
    split
    · rw [updateParentTaskChildren_map_id]
    · rfl
  refine ⟨by rw [hdel], collect_iff_reaches tm taskId depth hdepth hbound, hmapid,
    by rw [hdel], ?_, ?_⟩
  case refine_2 =>
    intro i hni
    have hnone : tm.tasks.find? (fun t => t.id == i) = none := by
      rw [List.find?_eq_none]
      intro t ht
      simp [hni t ht]
    unfold TaskManager.deleteTask
    rw [hnone]
  case refine_1 => ?_
  have hlen1 : (tm.deleteTask taskId).2.tasks.length =
      (tm.tasks.filter (fun t =>
        ¬ (TaskManager.collectTasksToDelete tm.tasks (tm.tasks.length + 1) taskId).contains
          t.id)).length := by
    have h1 := congrArg List.length hmapid
    simpa using h1
  rw [hlen1]
  set dels := TaskManager.collectTasksToDelete tm.tasks (tm.tasks.length + 1) taskId
    with hdels
  have hmemdels : taskId ∈ dels := by
    rw [hdels]
    unfold TaskManager.collectTasksToDelete
    exact List.mem_cons_self taskId _
  have hflen : (tm.tasks.filter (fun t => ¬ dels.contains t.id)).length =
      tm.tasks.countP (fun t => !(dels.contains t.id)) := by
    rw [List.countP_eq_length_filter]
    apply congrArg
    apply List.filter_congr
    intro t _
    cases hb : dels.contains t.id <;> simp [hb]
  rw [hflen]
  have hpart := length_filter_partition tm.tasks (fun t => dels.contains t.id)
  have hsplit := countP_bool_split tm.tasks (fun t => dels.contains t.id)
    (fun t => t.id == taskId)
  have himp : ∀ t ∈ tm.tasks, (t.id == taskId) = true → dels.contains t.id = true := by
    intro t _ hbeq
    have : t.id = taskId := by simpa using hbeq
    rw [this]
    simpa using hmemdels
  have hand := countP_and_of_imp tm.tasks (fun t => dels.contains t.id)
    (fun t => t.id == taskId) himp
  have hone := countP_id_eq_one tm.tasks hnodup taskId ⟨tw, htw, hidw⟩
  have hpart2 : tm.tasks.length = tm.tasks.countP (fun t => dels.contains t.id) +
      tm.tasks.countP (fun t => !(dels.contains t.id)) := hpart
  have hsplit2 : tm.tasks.countP (fun t => dels.contains t.id) =
      tm.tasks.countP (fun t => dels.contains t.id && (t.id == taskId)) +
      tm.tasks.countP (fun t => dels.contains t.id && !(t.id == taskId)) := hsplit
  have hand2 : tm.tasks.countP (fun t => dels.contains t.id && (t.id == taskId)) =
      tm.tasks.countP (fun t => t.id == taskId) := hand
  omega



/-- Witness for C6: deleting root 1 of the parent/child/grandchild manager
removes tasks 1, 2, 3 and the dependency 4→2, leaving `[4]`. -/
theorem deleteTask_cascade_witness :
    (c6Manager.deleteTask 1).1 = true ∧
    (c6Manager.deleteTask 1).2.tasks.map (·.id) = [4] ∧
    (c6Manager.deleteTask 1).2.dependencies = [] ∧
    c6Manager.tasks.length = (c6Manager.deleteTask 1).2.tasks.length + 1 +
      c6Manager.tasks.countP (fun t =>
        (TaskManager.collectTasksToDelete c6Manager.tasks (c6Manager.tasks.length + 1)
          1).contains t.id && !(t.id == 1)) := by
  have hdepth : ∀ t ∈ c6Manager.tasks, ∀ p, t.parentId = some p →
      c6Depth t.id = c6Depth p + 1 := by
    intro t ht p hp
    simp only [c6Manager, List.mem_cons, List.not_mem_nil, or_false] at ht
    rcases ht with rfl | rfl | rfl | rfl
    · simp [baseTask] at hp
    · simp [baseTask] at hp
      subst hp
      decide
    · simp [baseTask] at hp
      subst hp
      decide
    · simp [baseTask] at hp
  have h := deleteTask_cascade c6Manager 1 c6Depth (by decide) hdepth (by decide) (by decide)
  exact ⟨h.1, by decide, by decide, h.2.2.2.2.1⟩

/-! ## Claim C4 (corrected): auto-scheduler postcondition -/

/-- `autoScheduleTasks` is the topological order resolved through the final
task map. -/
theorem autoScheduleTasks_eq (tasks : List Task) (deps : List Dependency) :
    TaskUtils.autoScheduleTasks tasks deps =
      (TaskUtils.topoOrderIds tasks deps).filterMap
        (fun tid => TaskUtils.mapGet (TaskUtils.finalMap tasks deps) tid) := rfl

/-- `Map.get` on a cons cell. -/
theorem mapGet_cons (k1 : TaskId) (v1 : Task) (rest : List (TaskId × Task)) (k : TaskId) :
    TaskUtils.mapGet ((k1, v1) :: rest) k =
      if k1 = k then some v1 else TaskUtils.mapGet rest k := by
  by_cases h : k1 = k
  · rw [if_pos h]
    unfold TaskUtils.mapGet
    rw [List.find?_cons_of_pos _ (by simpa using h)]
    rfl
  · rw [if_neg h]
    unfold TaskUtils.mapGet
    rw [List.find?_cons_of_neg _ (by simpa using h)]

/-- `Map.get` after `Map.set`: the set key reads back the new value, any
other key is untouched. -/
theorem mapGet_mapSet (m : List (TaskId × Task)) (k : TaskId) (v : Task) (k' : TaskId) :
    TaskUtils.mapGet (TaskUtils.mapSet m k v) k' =
      if k = k' then some v else TaskUtils.mapGet m k' := by
  induction m with
  | nil =>
    rw [show TaskUtils.mapSet [] k v = [(k, v)] from rfl, mapGet_cons]
  | cons p rest ih =>
    obtain ⟨k1, v1⟩ := p
    by_cases h1 : k1 = k
    · subst h1
      rw [show TaskUtils.mapSet ((k1, v1) :: rest) k1 v = (k1, v) :: rest from by
            simp [TaskUtils.mapSet],
          mapGet_cons, mapGet_cons]
      by_cases h : k1 = k'
      · rw [if_pos h, if_pos h]
      · rw [if_neg h, if_neg h, if_neg h]
    · rw [show TaskUtils.mapSet ((k1, v1) :: rest) k v = (k1, v1) :: TaskUtils.mapSet rest k v from by
            simp [TaskUtils.mapSet, h1],
          mapGet_cons, ih, mapGet_cons]
      by_cases h : k = k'
      · subst h
        rw [if_pos rfl, if_pos rfl, if_neg h1]
      · rw [if_neg h, if_neg h]

/-- Reading back the key just set. -/
theorem mapGet_mapSet_self (m : List (TaskId × Task)) (k : TaskId) (v : Task) :
    TaskUtils.mapGet (TaskUtils.mapSet m k v) k = some v := by
  rw [mapGet_mapSet, if_pos rfl]

/-- `Map.set` leaves other keys alone. -/
theorem mapGet_mapSet_ne (m : List (TaskId × Task)) (k : TaskId) (v : Task) (k' : TaskId)
    (h : k' ≠ k) :
    TaskUtils.mapGet (TaskUtils.mapSet m k v) k' = TaskUtils.mapGet m k' := by
  rw [mapGet_mapSet, if_neg (fun he => h he.symm)]

/-- Inverting a read through a `Map.set`. -/
theorem mapGet_mapSet_cases (m : List (TaskId × Task)) (a : TaskId) (w : Task)
    (k : TaskId) (v : Task) (h : TaskUtils.mapGet (TaskUtils.mapSet m a w) k = some v) :
    (k = a ∧ v = w) ∨ (k ≠ a ∧ TaskUtils.mapGet m k = some v) := by
  rw [mapGet_mapSet] at h
  by_cases hk : a = k
  · rw [if_pos hk] at h
    exact Or.inl ⟨hk.symm, (Option.some_inj.mp h).symm⟩
  · rw [if_neg hk] at h
    exact Or.inr ⟨fun he => hk he.symm, h⟩

/-- Fold invariant for `buildMap`: every stored value is an input task
keyed by its own id. -/
theorem mapGet_buildMap_aux (tasks : List Task) (l : List Task)
    (m0 : List (TaskId × Task))
    (hl : ∀ t ∈ l, t ∈ tasks)
    (h0 : ∀ k v, TaskUtils.mapGet m0 k = some v → v ∈ tasks ∧ v.id = k) :
    ∀ k v, TaskUtils.mapGet (l.foldl (fun m t => TaskUtils.mapSet m t.id t) m0) k = some v →
      v ∈ tasks ∧ v.id = k := by
  induction l generalizing m0 with
  | nil => exact h0
  | cons t rest ih =>
    intro k v h
    refine ih _ (fun t' ht' => hl t' (List.mem_cons_of_mem _ ht')) ?_ k v h
    intro k' v' h'
    rcases mapGet_mapSet_cases m0 t.id t k' v' h' with ⟨hk, hv⟩ | ⟨_, h''⟩
    · subst hv
      subst hk
      exact ⟨hl v' (List.mem_cons_self _ _), rfl⟩
    · exact h0 k' v' h''

/-- Every hit in the freshly built task map is an input task keyed by its
own id. -/
theorem mapGet_buildMap_mem (tasks : List Task) (k : TaskId) (v : Task)
    (h : TaskUtils.mapGet (TaskUtils.buildMap tasks) k = some v) : v ∈ tasks ∧ v.id = k := by
  refine mapGet_buildMap_aux tasks tasks [] (fun t ht => ht) ?_ k v h
  intro k' v' h'
  simp [TaskUtils.mapGet] at h'

/-- The adjustment step skips ids missing from the map. -/
theorem scheduleStep_none (deps : List Dependency) (m : List (TaskId × Task)) (tid : TaskId)
    (h : TaskUtils.mapGet m tid = none) : TaskUtils.scheduleStep deps m tid = m := by
  unfold TaskUtils.scheduleStep
  rw [h]

/-- The adjustment step for a present id, written with `maxEndIn`: no
incoming dependencies or a `maxEndDate` still at the epoch leave the map
untouched, otherwise the task is rewritten to start the day after
`maxEndDate` keeping its duration. -/
theorem scheduleStep_some (deps : List Dependency) (m : List (TaskId × Task)) (tid : TaskId)
    (task : Task) (h : TaskUtils.mapGet m tid = some task) :
    TaskUtils.scheduleStep deps m tid =
      if ((deps.filter (fun dep => dep.toId == tid)).length == 0) then m
      else if TaskUtils.maxEndIn deps m tid > 0 then
        TaskUtils.mapSet m tid
          { task with
            start := TaskUtils.maxEndIn deps m tid + 1,
            endDate := (TaskUtils.maxEndIn deps m tid + 1 + (task.endDate - task.start)) }
      else m := by
  unfold TaskUtils.scheduleStep
  rw [h]
  rfl

/-- The adjustment step for `tid` changes no other id's entry. -/
theorem scheduleStep_get_ne (deps : List Dependency) (m : List (TaskId × Task))
    (tid tid' : TaskId) (h : tid' ≠ tid) :
    TaskUtils.mapGet (TaskUtils.scheduleStep deps m tid) tid' = TaskUtils.mapGet m tid' := by
  cases hget : TaskUtils.mapGet m tid with
  | none => rw [scheduleStep_none deps m tid hget]
  | some task =>
    rw [scheduleStep_some deps m tid task hget]
    by_cases hlen : (((deps.filter (fun dep => dep.toId == tid)).length == 0) = true)
    · rw [if_pos hlen]
    · rw [if_neg hlen]
      by_cases hpos : TaskUtils.maxEndIn deps m tid > 0
      · rw [if_pos hpos, mapGet_mapSet_ne m tid _ tid' h]
      · rw [if_neg hpos]

/-- Ids not in the processed order keep their map entry across the whole
adjustment loop. -/
theorem foldl_scheduleStep_get_not_mem (deps : List Dependency) (l : List TaskId)
    (m : List (TaskId × Task)) (tid : TaskId) (h : tid ∉ l) :
    TaskUtils.mapGet (l.foldl (TaskUtils.scheduleStep deps) m) tid =
      TaskUtils.mapGet m tid := by
  induction l generalizing m with
  | nil => rfl
  | cons a rest ih =>
    rw [List.foldl_cons, ih _ (fun hmem => h (List.mem_cons_of_mem _ hmem)),
        scheduleStep_get_ne deps m a tid (fun he => h (he ▸ List.mem_cons_self _ _))]

/-- `maxEndIn` only looks at the predecessors' entries. -/
theorem maxEndIn_congr (deps : List Dependency) (m1 m2 : List (TaskId × Task)) (tid : TaskId)
    (h : ∀ dep ∈ deps.filter (fun dep => dep.toId == tid),
      TaskUtils.mapGet m1 dep.fromId = TaskUtils.mapGet m2 dep.fromId) :
    TaskUtils.maxEndIn deps m1 tid = TaskUtils.maxEndIn deps m2 tid := by
  unfold TaskUtils.maxEndIn
  apply List.foldl_ext
  intro acc dep hdep
  rw [h dep hdep]

/-- One adjustment step preserves ids and durations. -/
theorem durPreserved_scheduleStep (tasks : List Task) (deps : List Dependency)
    (m : List (TaskId × Task)) (tid : TaskId)
    (h : TaskUtils.DurPreserved tasks m) :
    TaskUtils.DurPreserved tasks (TaskUtils.scheduleStep deps m tid) := by
  intro k v hv
  cases hget : TaskUtils.mapGet m tid with
  | none =>
    rw [scheduleStep_none deps m tid hget] at hv
    exact h k v hv
  | some task =>
    rw [scheduleStep_some deps m tid task hget] at hv
    by_cases hlen : (((deps.filter (fun dep => dep.toId == tid)).length == 0) = true)
    · rw [if_pos hlen] at hv
      exact h k v hv
    · rw [if_neg hlen] at hv
      by_cases hpos : TaskUtils.maxEndIn deps m tid > 0
      · rw [if_pos hpos] at hv
        rcases mapGet_mapSet_cases m tid _ k v hv with ⟨hk, hv'⟩ | ⟨_, h''⟩
        · subst hv'
          obtain ⟨hid, t, htmem, htid, hdur⟩ := h tid task hget
          refine ⟨show task.id = k from by rw [hk]; exact hid, t, htmem,
            show t.id = k from by rw [hk]; exact htid, ?_⟩
          show TaskUtils.maxEndIn deps m tid + 1 + (task.endDate - task.start)
              - (TaskUtils.maxEndIn deps m tid + 1) = t.endDate - t.start
          omega
        · exact h k v h''
      · rw [if_neg hpos] at hv
        exact h k v hv

/-- The whole adjustment loop preserves ids and durations. -/
theorem durPreserved_foldl (tasks : List Task) (deps : List Dependency)
    (order : List TaskId) (m : List (TaskId × Task))
    (h : TaskUtils.DurPreserved tasks m) :
    TaskUtils.DurPreserved tasks (order.foldl (TaskUtils.scheduleStep deps) m) := by
  induction order generalizing m with
  | nil => exact h
  | cons a rest ih => exact ih _ (durPreserved_scheduleStep tasks deps m a h)

/-- The initial map trivially preserves ids and durations. -/
theorem durPreserved_buildMap (tasks : List Task) :
    TaskUtils.DurPreserved tasks (TaskUtils.buildMap tasks) := by
  intro k v h
  obtain ⟨hmem, hid⟩ := mapGet_buildMap_mem tasks k v h
  exact ⟨hid, v, hmem, hid, rfl⟩

/-- Duration preservation: every scheduled task keeps the `end - start`
span of an input task with its id (unconditionally, cycle-skips included). -/
theorem autoScheduleTasks_duration (tasks : List Task) (deps : List Dependency) :
    ∀ t' ∈ TaskUtils.autoScheduleTasks tasks deps,
      ∃ t ∈ tasks, t.id = t'.id ∧ t'.endDate - t'.start = t.endDate - t.start := by
  intro t' ht'
  rw [autoScheduleTasks_eq] at ht'
  obtain ⟨tid, htid, hget⟩ := List.mem_filterMap.mp ht'
  obtain ⟨hid, t, htmem, htid', hdur⟩ :=
    durPreserved_foldl tasks deps _ _ (durPreserved_buildMap tasks) tid t' hget
  exact ⟨t, htmem, by rw [htid', hid], hdur⟩

/-- C4 (amended): when the topological order places `tid` after all of its
predecessors and none of the predecessors' final end dates is on or before
1970-01-01 (`maxEndIn > 0`, the epoch guard the code adds), the scheduler
rewrites the task found for `tid` so that its new start is the day after
the latest final predecessor end and its new end is that start plus the
task's original duration; `end - start` is preserved for every output task
unconditionally; and on the claim's concrete two-task example task 2 ends
up with start 2024-01-06 and end 2024-01-11. -/
theorem autoScheduleTasks_spec
    (tasks : List Task) (deps : List Dependency) (tid : TaskId)
    (pre post : List TaskId) (task0 : Task)
    (horder : TaskUtils.topoOrderIds tasks deps = pre ++ tid :: post)
    (hpre : tid ∉ pre) (hpost : tid ∉ post)
    (hfrom : ∀ dep ∈ deps, dep.toId = tid → dep.fromId ∉ post ∧ dep.fromId ≠ tid)
    (htask : TaskUtils.mapGet (TaskUtils.buildMap tasks) tid = some task0)
    (hhas : (deps.filter (fun dep => dep.toId == tid)).length ≠ 0)
    (hpos : TaskUtils.maxEndIn deps (TaskUtils.finalMap tasks deps) tid > 0) :
    (∀ t' ∈ TaskUtils.autoScheduleTasks tasks deps,
        ∃ t ∈ tasks, t.id = t'.id ∧ t'.endDate - t'.start = t.endDate - t.start) ∧
    TaskUtils.mapGet (TaskUtils.finalMap tasks deps) tid =
      some { task0 with
             start := TaskUtils.maxEndIn deps (TaskUtils.finalMap tasks deps) tid + 1,
             endDate := (TaskUtils.maxEndIn deps (TaskUtils.finalMap tasks deps) tid + 1
               + (task0.endDate - task0.start)) } ∧
    { task0 with
      start := TaskUtils.maxEndIn deps (TaskUtils.finalMap tasks deps) tid + 1,
      endDate := (TaskUtils.maxEndIn deps (TaskUtils.finalMap tasks deps) tid + 1
        + (task0.endDate - task0.start)) } ∈ TaskUtils.autoScheduleTasks tasks deps ∧
    TaskUtils.autoScheduleTasks [c4Task1, c4Task2] [c4Dep] =
      [c4Task1, { c4Task2 with start := civilToDays 2024 1 6, endDate := civilToDays 2024 1 11 }] := by
  have hfold : TaskUtils.finalMap tasks deps
      = post.foldl (TaskUtils.scheduleStep deps)
          (TaskUtils.scheduleStep deps
            (pre.foldl (TaskUtils.scheduleStep deps) (TaskUtils.buildMap tasks)) tid) := by
    unfold TaskUtils.finalMap
    rw [horder, List.foldl_append, List.foldl_cons]
  have h1 : TaskUtils.mapGet
      (pre.foldl (TaskUtils.scheduleStep deps) (TaskUtils.buildMap tasks)) tid = some task0 := by
    rw [foldl_scheduleStep_get_not_mem deps pre _ tid hpre]
    exact htask
  have hframe : ∀ p, p ∉ post → p ≠ tid →
      TaskUtils.mapGet (TaskUtils.finalMap tasks deps) p
        = TaskUtils.mapGet
            (pre.foldl (TaskUtils.scheduleStep deps) (TaskUtils.buildMap tasks)) p := by
    intro p hp hptid
    rw [hfold, foldl_scheduleStep_get_not_mem deps post _ p hp,
        scheduleStep_get_ne deps _ tid p hptid]
  have hmax : TaskUtils.maxEndIn deps (TaskUtils.finalMap tasks deps) tid
      = TaskUtils.maxEndIn deps
          (pre.foldl (TaskUtils.scheduleStep deps) (TaskUtils.buildMap tasks)) tid := by
    apply maxEndIn_congr
    intro dep hdep
    have hdep' := List.mem_filter.mp hdep
    have htoid : dep.toId = tid := by simpa using hdep'.2
    obtain ⟨hnp, hnt⟩ := hfrom dep hdep'.1 htoid
    exact hframe dep.fromId hnp hnt
  have hget1 : TaskUtils.mapGet (TaskUtils.finalMap tasks deps) tid =
      some { task0 with
             start := (TaskUtils.maxEndIn deps
               (pre.foldl (TaskUtils.scheduleStep deps) (TaskUtils.buildMap tasks)) tid + 1),
             endDate := (TaskUtils.maxEndIn deps
               (pre.foldl (TaskUtils.scheduleStep deps) (TaskUtils.buildMap tasks)) tid + 1
               + (task0.endDate - task0.start)) } := by
    rw [hfold, foldl_scheduleStep_get_not_mem deps post _ tid hpost,
        scheduleStep_some deps _ tid task0 h1,
        if_neg (by simpa using hhas),
        if_pos (show TaskUtils.maxEndIn deps
          (pre.foldl (TaskUtils.scheduleStep deps) (TaskUtils.buildMap tasks)) tid > 0 from by
            rw [← hmax]; exact hpos),
        mapGet_mapSet_self]
  have hget2 : TaskUtils.mapGet (TaskUtils.finalMap tasks deps) tid =
      some { task0 with
             start := TaskUtils.maxEndIn deps (TaskUtils.finalMap tasks deps) tid + 1,
             endDate := (TaskUtils.maxEndIn deps (TaskUtils.finalMap tasks deps) tid + 1
               + (task0.endDate - task0.start)) } := by
    rw [hget1, hmax]
  have hmem : tid ∈ TaskUtils.topoOrderIds tasks deps := by
    rw [horder]
    exact List.mem_append_right _ (List.mem_cons_self _ _)
  refine ⟨autoScheduleTasks_duration tasks deps, hget2, ?_, by decide⟩
  rw [autoScheduleTasks_eq]
  exact List.mem_filterMap.mpr ⟨tid, hmem, hget2⟩

/-- Witness for C4 on the claim's concrete example: task 2 (dependency
1→2) is rescheduled to the day after task 1's end, keeping its 5-day span. -/
theorem autoScheduleTasks_spec_witness :
    TaskUtils.mapGet (TaskUtils.finalMap [c4Task1, c4Task2] [c4Dep]) 2 =
      some { c4Task2 with
             start := (TaskUtils.maxEndIn [c4Dep]
               (TaskUtils.finalMap [c4Task1, c4Task2] [c4Dep]) 2 + 1),
             endDate := (TaskUtils.maxEndIn [c4Dep]
               (TaskUtils.finalMap [c4Task1, c4Task2] [c4Dep]) 2 + 1
               + (c4Task2.endDate - c4Task2.start)) } ∧
    TaskUtils.autoScheduleTasks [c4Task1, c4Task2] [c4Dep] =
      [c4Task1, { c4Task2 with start := civilToDays 2024 1 6, endDate := civilToDays 2024 1 11 }] := by
  have h := autoScheduleTasks_spec [c4Task1, c4Task2] [c4Dep] 2 [1] [] c4Task2
    (by decide) (by decide) (by decide) (by decide) (by decide) (by decide) (by decide)
  exact ⟨h.2.1, h.2.2.2⟩

/-- Counterexample to C4 as stated: task 2 has predecessor task 1 in the
dependency list, yet `autoScheduleTasks` leaves task 2's dates unchanged —
task 1 ends 1969-12-31, so `maxEndDate` never beats the `new Date(0)` seed
and the `maxEndDate.getTime() > 0` guard skips the rescheduling; task 2's
start is not the day after its predecessor's end. -/
theorem autoScheduleTasks_skips_predecessors_ending_before_epoch :
    TaskUtils.autoScheduleTasks [c4PreTask1, c4PreTask2] [c4Dep] = [c4PreTask1, c4PreTask2] ∧
    (([c4Dep] : List Dependency).filter (fun dep => dep.toId == 2)).length ≠ 0 ∧
    c4PreTask2.start ≠ DateUtils.addDays c4PreTask1.endDate 1 := by
  refine ⟨by decide, by decide, by decide⟩

end Gantt

